import Mathlib

/-!
Verification of the HospitalRegistry appointment registry.

The definitions below are a shallow embedding of the C++ sources:
`AbstractPerson.h`, `Doctor`/`Patient` (`Patient.h`), `Appointment.h`,
`HospitalVisitCard.h` and `Registry.h`.  Mutable vectors become lists,
methods become pure functions threading the registry state, and thrown
`std::runtime_error` exceptions become explicit outcome values (the C++
registry object survives a throw, so an operation returns the state it
left behind together with its outcome).
-/

/-- Shared data of `AbstractPerson` (base of `Doctor` and `Patient`):
a name, a date of birth (doctors are constructed without one, leaving the
default-constructed empty string) and an appointment list whose entries are
`(dateTime, (patientName, doctorName))` as in
`vector<pair<string, pair<string, string>>> appointments`. -/
structure AbstractPerson where
  name : String
  dateOfBirth : String
  appointments : List (String × String × String)
deriving Repr, DecidableEq, Inhabited

/-- The `Doctor(name)` constructor: date of birth left empty, no appointments. -/
def mkDoctor (name : String) : AbstractPerson :=
  { name := name, dateOfBirth := "", appointments := [] }

/-- The `Patient(name, dateOfBirth)` constructor. -/
def mkPatient (name dateOfBirth : String) : AbstractPerson :=
  { name := name, dateOfBirth := dateOfBirth, appointments := [] }

/-- `AbstractPerson::addAppointment`: push the triple onto the list. -/
def AbstractPerson.addAppointment (p : AbstractPerson)
    (dateTime patientName doctorName : String) : AbstractPerson :=
  { p with appointments := p.appointments ++ [(dateTime, patientName, doctorName)] }

/-- `AbstractPerson::deleteAppointment`: `remove_if` erases every entry whose
three fields all match. -/
def AbstractPerson.deleteAppointment (p : AbstractPerson)
    (dateTime patientName doctorName : String) : AbstractPerson :=
  { p with appointments := p.appointments.filter fun a =>
      !(a.1 == dateTime && a.2.1 == patientName && a.2.2 == doctorName) }

/-- `Doctor::isAvailable`: false iff some entry of the appointment list has
exactly the given dateTime string. -/
def AbstractPerson.isAvailable (d : AbstractPerson) (dateTime : String) : Bool :=
  d.appointments.all fun app => !(app.1 == dateTime)

/-- `Appointment`: a dateTime together with value copies (snapshots) of the
doctor and the patient taken at construction time. -/
structure Appointment where
  dateTime : String
  doctor : AbstractPerson
  patient : AbstractPerson
deriving Repr, DecidableEq, Inhabited

/-- `HospitalVisitCard`: value copies of doctor and patient plus the visit
dateTime and the diagnosis. -/
structure HospitalVisitCard where
  doctor : AbstractPerson
  patient : AbstractPerson
  dateTime : String
  diagnosis : String
deriving Repr, DecidableEq, Inhabited

/-- `HospitalVisitCard::getPatientName`. -/
def HospitalVisitCard.getPatientName (c : HospitalVisitCard) : String :=
  c.patient.name

/-- The four collections owned by `Registry`. -/
structure Registry where
  visitCards : List HospitalVisitCard
  doctors : List AbstractPerson
  patients : List AbstractPerson
  appointments : List Appointment
deriving Repr, DecidableEq, Inhabited

/-- The in-class initializers of `Registry`: eight fixed doctors, eight seed
patients, no appointments, no visit cards. -/
def initialRegistry : Registry :=
  { visitCards := []
    doctors :=
      [mkDoctor "John Smith", mkDoctor "Emily Johnson", mkDoctor "David Brown",
       mkDoctor "Sarah Lee", mkDoctor "Michael Wilson", mkDoctor "Alexandra Garcia",
       mkDoctor "Matthew Taylor", mkDoctor "Olivia Martinez"]
    patients :=
      [mkPatient "Alice Smith" "23.08.1997", mkPatient "Bob Johnson" "22.06.2000",
       mkPatient "Charlie Brown" "12.01.1998", mkPatient "Diana Davis" "03.03.2003",
       mkPatient "Eva Martinez" "02.08.2008", mkPatient "Frank Lopez" "14.02.2012",
       mkPatient "Grace Lee" "14.08.2012", mkPatient "Henry Jackson" "22.08.2006"]
    appointments := [] }

/-- `Registry::patientExists`: linear scan of the patient list by name. -/
def Registry.patientExists (r : Registry) (name : String) : Bool :=
  r.patients.any fun patient => patient.name == name

/-- `Registry::findDoctorByName` returns a reference to the first doctor whose
name matches; we model the reference as the index of that doctor, `none`
standing for the thrown `runtime_error("Doctor not found.")`. -/
def Registry.findDoctorIdx (r : Registry) (name : String) : Option Nat :=
  r.doctors.findIdx? fun doctor => doctor.name == name

/-- `Registry::findPatientByName`, modelled as an index like
`Registry.findDoctorIdx`. -/
def Registry.findPatientIdx (r : Registry) (name : String) : Option Nat :=
  r.patients.findIdx? fun patient => patient.name == name

/-- Outcome of `Registry::scheduleAppointment`: success, the printed
doctor-not-available report, or the `runtime_error` thrown by
`findPatientByName` when the passed patient is not registered. -/
inductive ScheduleOutcome where
  | scheduled
  | notAvailable
  | patientNotFound
deriving Repr, DecidableEq

/-- `Registry::scheduleAppointment(dateTime, doctor, patient)`.  The C++
method receives `Doctor&`; in actual use (see `Menu::selectDoctorFromList`)
that reference aliases an element of the registry doctor vector, so the
doctor argument is modelled as an index `di` into `r.doctors`.  When the
doctor is available, the doctor record is mutated first, then the patient is
re-resolved by name (`findPatientByName`, which throws when absent — at that
point the doctor mutation has already happened) and mutated, and finally an
`Appointment` holding snapshots of the two updated records is pushed onto
the global list. -/
def Registry.scheduleAppointment (r : Registry) (dateTime : String) (di : Nat)
    (patient : AbstractPerson) : Registry × ScheduleOutcome :=
  let doctor := r.doctors.getD di default
  if doctor.isAvailable dateTime then
    let doctor1 := doctor.addAppointment dateTime patient.name doctor.name
    let r1 := { r with doctors := r.doctors.set di doctor1 }
    match r1.findPatientIdx patient.name with
    | none => (r1, ScheduleOutcome.patientNotFound)
    | some pidx =>
      let registeredPatient :=
        (r1.patients.getD pidx default).addAppointment dateTime patient.name doctor1.name
      let r2 := { r1 with patients := r1.patients.set pidx registeredPatient }
      ({ r2 with appointments :=
          r2.appointments ++ [⟨dateTime, doctor1, registeredPatient⟩] },
       ScheduleOutcome.scheduled)
  else
    (r, ScheduleOutcome.notAvailable)

/-- Outcome of `Registry::cancelAppointment`: normal completion or one of the
two `runtime_error` throws from the by-name lookups. -/
inductive CancelOutcome where
  | canceled
  | doctorNotFound
  | patientNotFound
deriving Repr, DecidableEq

/-- `Registry::cancelAppointment(dateTime, patientName, doctorName)`: first
`remove_if` erases every global appointment whose three fields match, then
the doctor is looked up by name (throwing if absent, with the global erase
already done) and every matching entry is removed from its list, then the
same for the patient. -/
def Registry.cancelAppointment (r : Registry)
    (dateTime patientName doctorName : String) : Registry × CancelOutcome :=
  let r1 := { r with appointments := r.appointments.filter fun app =>
      !(app.dateTime == dateTime && app.patient.name == patientName &&
        app.doctor.name == doctorName) }
  match r1.findDoctorIdx doctorName with
  | none => (r1, CancelOutcome.doctorNotFound)
  | some di =>
    let doctor1 := (r1.doctors.getD di default).deleteAppointment dateTime patientName doctorName
    let r2 := { r1 with doctors := r1.doctors.set di doctor1 }
    match r2.findPatientIdx patientName with
    | none => (r2, CancelOutcome.patientNotFound)
    | some pidx =>
      let patient1 := (r2.patients.getD pidx default).deleteAppointment dateTime patientName doctorName
      ({ r2 with patients := r2.patients.set pidx patient1 }, CancelOutcome.canceled)

/-- The loop body of `Registry::getVisitCardsForPatient`: walk the stored
cards in order, pushing those whose embedded patient name matches. -/
def visitCardsLoop : List HospitalVisitCard → String → List HospitalVisitCard
  | [], _ => []
  | c :: rest, n =>
    if c.getPatientName == n then c :: visitCardsLoop rest n else visitCardsLoop rest n

/-- `Registry::getVisitCardsForPatient`. -/
def Registry.getVisitCardsForPatient (r : Registry) (patient : AbstractPerson) :
    List HospitalVisitCard :=
  visitCardsLoop r.visitCards patient.name

/-- `Registry::addHospitalVisitCard`: build the card, push it, return it. -/
def Registry.addHospitalVisitCard (r : Registry) (doctor patient : AbstractPerson)
    (dateTime diagnosis : String) : Registry × HospitalVisitCard :=
  let visitCard : HospitalVisitCard := ⟨doctor, patient, dateTime, diagnosis⟩
  ({ r with visitCards := r.visitCards ++ [visitCard] }, visitCard)

/-- `Registry::addPatient(name, age)`: if a patient with that name exists,
return the existing record (by value) without any mutation; otherwise append
a fresh `Patient(name, age)` and return it. -/
def Registry.addPatient (r : Registry) (name age : String) :
    Registry × AbstractPerson :=
  if r.patientExists name then
    (r, (r.patients.find? fun patient => patient.name == name).getD default)
  else
    let patient := mkPatient name age
    ({ r with patients := r.patients ++ [patient] }, patient)

/-- `WORK_START_HOUR`. -/
def WORK_START_HOUR : Nat := 8

/-- `WORK_END_HOUR`. -/
def WORK_END_HOUR : Nat := 18

/-- `APPOINTMENT_DURATION` (minutes). -/
def APPOINTMENT_DURATION : Nat := 30

/-- The `snprintf(buffer, _, "%02d:%02d", ...)` zero padding for the values
in range (all uses are hours below 24 or minutes below 60). -/
def formatTwoDigits (n : Nat) : String :=
  if n < 10 then "0" ++ toString n else toString n

/-- `Registry::getAvailableTimes(date)`: doctor-major outer loop over the
registry doctor list, hours `WORK_START_HOUR` up to `WORK_END_HOUR`
exclusive, minutes `0` then `APPOINTMENT_DURATION` (the C++ inner loop
`minute < 60; minute += 30` runs exactly for minutes 0 and 30); a slot is
emitted iff the doctor is available at the exact dateTime string. -/
def Registry.getAvailableTimes (r : Registry) (date : String) :
    List (String × String) :=
  r.doctors.flatMap fun doctor =>
    (List.range' WORK_START_HOUR (WORK_END_HOUR - WORK_START_HOUR)).flatMap fun hour =>
      [0, APPOINTMENT_DURATION].filterMap fun minute =>
        let time := formatTwoDigits hour ++ ":" ++ formatTwoDigits minute
        let dateTime := date ++ " " ++ time
        if doctor.isAvailable dateTime then some (dateTime, doctor.name) else none

/-- `Registry::getAvailableTimesForDoctor`: filter of `getAvailableTimes`
by the doctor-name component. -/
def Registry.getAvailableTimesForDoctor (r : Registry) (date doctorName : String) :
    List (String × String) :=
  (r.getAvailableTimes date).filter fun timeDoctorPair => timeDoctorPair.2 == doctorName

/-- `Registry::getAvailableDoctors`: collect the doctor names occurring in
`getAvailableTimes` (the C++ `std::set` only serves membership tests) and
emit them in registry doctor-list order. -/
def Registry.getAvailableDoctors (r : Registry) (date : String) : List String :=
  let availableTimes := r.getAvailableTimes date
  (r.doctors.filter fun doctor =>
    availableTimes.any fun timeDoctorPair => timeDoctorPair.2 == doctor.name).map
    fun doctor => doctor.name

/-- The fixed `defaultTime` list of
`Registry::scheduleDefaulteAppointmentsForDate` (each entry carries its
leading space). -/
def defaultTime : List String :=
  [" 17:00", " 12:30", " 08:30", " 14:00", " 13:30", " 09:00", " 15:00", " 10:00"]

/-- One iteration of the seeding double loop: book doctor `i` with patient
`j` at `date ++ defaultTime[ti]`, appending to the doctor record, the
patient record and the global list (no availability check). -/
def seedOne (r : Registry) (date : String) (i j ti : Nat) : Registry :=
  let dateTime := date ++ defaultTime.getD ti ""
  let doctor := r.doctors.getD i default
  let patientName := (r.patients.getD j default).name
  let doctor1 := doctor.addAppointment dateTime patientName doctor.name
  let r1 := { r with doctors := r.doctors.set i doctor1 }
  let patient1 := (r1.patients.getD j default).addAppointment dateTime patientName doctor1.name
  let r2 := { r1 with patients := r1.patients.set j patient1 }
  { r2 with appointments := r2.appointments ++ [⟨dateTime, doctor1, patient1⟩] }

/-- The inner `j` loop of `scheduleDefaulteAppointmentsForDate`, threading
the mutable `defaultTimeIndex`, which steps by
`(defaultTimeIndex - 1 + size) % size` after each booking. -/
def seedInner : Registry → String → Nat → List Nat → Nat → Registry × Nat
  | r, _, _, [], ti => (r, ti)
  | r, date, i, j :: js, ti =>
    seedInner (seedOne r date i j ti) date i js
      ((ti + defaultTime.length - 1) % defaultTime.length)

/-- The outer `i` loop of `scheduleDefaulteAppointmentsForDate`. -/
def seedOuter : Registry → String → List Nat → List Nat → Nat → Registry × Nat
  | r, _, [], _, ti => (r, ti)
  | r, date, i :: iRest, js, ti =>
    let inner := seedInner r date i js ti
    seedOuter inner.1 date iRest js inner.2

/-- `Registry::scheduleDefaulteAppointmentsForDate`: doctors `startIndex`
up to `doctorCount` exclusive against patients `startIndex` up to
`patientCount` exclusive. -/
def Registry.scheduleDefaulteAppointmentsForDate (r : Registry) (date : String)
    (defaultTimeIndex doctorCount patientCount startIndex : Nat) : Registry :=
  (seedOuter r date (List.range' startIndex (doctorCount - startIndex))
    (List.range' startIndex (patientCount - startIndex)) defaultTimeIndex).1

/-- `Registry::generateDefaultAppointments`, parameterised by the two date
strings the C++ obtains from the system clock (`getTodayDate`,
`getTomorrowDate`): first half of doctors against first half of patients for
today starting at time index 0, then doctors and patients from index 4 for
tomorrow starting at time index 7. -/
def Registry.generateDefaultAppointments (r : Registry)
    (todayDate tomorrowDate : String) : Registry :=
  let r1 := r.scheduleDefaulteAppointmentsForDate todayDate 0
    (r.doctors.length / 2) (r.patients.length / 2) 0
  r1.scheduleDefaulteAppointmentsForDate tomorrowDate 7
    r1.doctors.length r1.patients.length 4

/-!  General helper lemmas. -/

/-- Reading an in-range index with `getD` is plain indexing. -/
lemma getD_eq_getElem {α : Type} [Inhabited α] (l : List α) (i : Nat)
    (h : i < l.length) : l.getD i default = l[i] := by
  simp [List.getD_eq_getElem?_getD, List.getElem?_eq_getElem h]

/-- Overwriting an index with the element already there changes nothing. -/
lemma set_getElem_self {α : Type} (l : List α) (i : Nat) (h : i < l.length) :
    l.set i l[i] = l := by
  apply List.ext_getElem
  · simp
  · intro j h1 h2
    rcases eq_or_ne i j with rfl | hne
    · simp
    · simp [List.getElem_set_ne hne]

/-!  C9: visit card filter. -/

/-- The visit card loop is an order-preserving filter. -/
lemma visitCardsLoop_eq_filter (n : String) :
    ∀ l : List HospitalVisitCard, visitCardsLoop l n = l.filter fun c => c.getPatientName == n
  | [] => rfl
  | c :: rest => by
    rw [visitCardsLoop, List.filter_cons]
    cases h : c.getPatientName == n <;> simp [h, visitCardsLoop_eq_filter n rest]

/-- C9: for every patient record and every registry state,
`getVisitCardsForPatient` returns exactly the stored visit cards whose
embedded patient name is string-equal to the name of the given patient, in
the insertion order of the visit card store (a sublist of the store), and
no others. -/
theorem getVisitCardsForPatient_correct (r : Registry) (p : AbstractPerson) :
    r.getVisitCardsForPatient p =
      (r.visitCards.filter fun c => decide (c.patient.name = p.name)) ∧
    (r.getVisitCardsForPatient p).Sublist r.visitCards := by
  have hloop := visitCardsLoop_eq_filter p.name r.visitCards
  constructor
  · rw [Registry.getVisitCardsForPatient, hloop]
    apply List.filter_congr
    intro c _
    simp [HospitalVisitCard.getPatientName, Bool.beq_eq_decide_eq]
  · rw [Registry.getVisitCardsForPatient, hloop]
    exact List.filter_sublist _

/-!  C7: addPatient is idempotent on name, first write wins. -/

/-- C7: adding a fresh name and then adding the same name again with another
date of birth leaves the registry exactly as after the first add, keeps
exactly one patient with that name (storing the first date of birth), and
the second call returns a value copy of the stored patient. -/
theorem addPatient_first_write_wins (r : Registry) (name dob1 dob2 : String)
    (hfresh : r.patientExists name = false) :
    ((r.addPatient name dob1).1.addPatient name dob2).1 = (r.addPatient name dob1).1 ∧
    (((r.addPatient name dob1).1.addPatient name dob2).1.patients.filter
        fun p => p.name == name) = [mkPatient name dob1] ∧
    ((r.addPatient name dob1).1.addPatient name dob2).2 = mkPatient name dob1 := by
  have hall : ∀ p ∈ r.patients, ¬(p.name == name) = true := by
    rw [Registry.patientExists, List.any_eq_false] at hfresh
    exact hfresh
  have hfind : (r.patients.find? fun p => p.name == name) = none :=
    List.find?_eq_none.mpr hall
  have hfil : (r.patients.filter fun p => p.name == name) = [] :=
    List.filter_eq_nil_iff.mpr hall
  have h1a : (r.addPatient name dob1).1 =
      { r with patients := r.patients ++ [mkPatient name dob1] } := by
    simp [Registry.addPatient, hfresh]
  rw [h1a]
  have hex2 : Registry.patientExists
      { r with patients := r.patients ++ [mkPatient name dob1] } name = true := by
    simp [Registry.patientExists, mkPatient]
  have h3 : (({ r with patients := r.patients ++ [mkPatient name dob1] } : Registry).patients.find?
      fun p => p.name == name) = some (mkPatient name dob1) := by
    simp [List.find?_append, hfind, mkPatient]
  have h2 : Registry.addPatient
      { r with patients := r.patients ++ [mkPatient name dob1] } name dob2 =
      ({ r with patients := r.patients ++ [mkPatient name dob1] }, mkPatient name dob1) := by
    simp [Registry.addPatient, hex2, h3]
  rw [h2]
  refine ⟨rfl, ?_, rfl⟩
  simp [List.filter_append, hfil, mkPatient]

/-!  C10: the query operations do not mutate the registry.  The C++ methods
receive the registry object mutably, so each is modelled in state-passing
style: the translated body performs only reads and hands back the state it
was given. -/

/-- State-passing form of `Registry::patientExists`. -/
def Registry.patientExists_call (r : Registry) (name : String) : Bool × Registry :=
  (r.patientExists name, r)

/-- State-passing form of `Registry::getAvailableTimes`. -/
def Registry.getAvailableTimes_call (r : Registry) (date : String) :
    List (String × String) × Registry :=
  (r.getAvailableTimes date, r)

/-- State-passing form of `Registry::getAvailableTimesForDoctor`. -/
def Registry.getAvailableTimesForDoctor_call (r : Registry) (date doctorName : String) :
    List (String × String) × Registry :=
  (r.getAvailableTimesForDoctor date doctorName, r)

/-- State-passing form of `Registry::getAvailableDoctors`. -/
def Registry.getAvailableDoctors_call (r : Registry) (date : String) :
    List String × Registry :=
  (r.getAvailableDoctors date, r)

/-- State-passing form of `Registry::getVisitCardsForPatient`. -/
def Registry.getVisitCardsForPatient_call (r : Registry) (patient : AbstractPerson) :
    List HospitalVisitCard × Registry :=
  (r.getVisitCardsForPatient patient, r)

/-- C10: every query operation leaves the registry state (all four
collections) unchanged. -/
theorem queries_leave_registry_unchanged (r : Registry)
    (name date doctorName : String) (p : AbstractPerson) :
    (r.patientExists_call name).2 = r ∧
    (r.getAvailableTimes_call date).2 = r ∧
    (r.getAvailableTimesForDoctor_call date doctorName).2 = r ∧
    (r.getAvailableDoctors_call date).2 = r ∧
    (r.getVisitCardsForPatient_call p).2 = r :=
  ⟨rfl, rfl, rfl, rfl, rfl⟩

/-!  C2 and C5: effect characterisations of booking and cancellation. -/

/-- Existence of a patient name implies the by-name lookup succeeds. -/
lemma findPatientIdx_of_exists (r : Registry) (n : String)
    (h : r.patientExists n = true) : ∃ pidx, r.findPatientIdx n = some pidx := by
  rw [Registry.patientExists] at h
  rw [Registry.findPatientIdx]
  have hs : (r.patients.findIdx? fun p => p.name == n).isSome = true := by
    rw [List.findIdx?_isSome, h]
  exact Option.isSome_iff_exists.mp hs

/-- Modelled from the spec wording of cancellation: remove every entry of a
person appointment list whose three fields exactly match the triple
(remove-all, exact match). -/
def removeMatchingEntries (l : List (String × String × String))
    (t pn dn : String) : List (String × String × String) :=
  l.filter fun e => decide ¬(e.1 = t ∧ e.2.1 = pn ∧ e.2.2 = dn)

/-- Modelled from the spec wording of cancellation: remove every global
appointment whose three fields exactly match the triple. -/
def removeMatchingAppointments (l : List Appointment) (t pn dn : String) :
    List Appointment :=
  l.filter fun a => decide ¬(a.dateTime = t ∧ a.patient.name = pn ∧ a.doctor.name = dn)

/-- `deleteAppointment` coincides with the spec-side remove-all filter. -/
lemma deleteAppointment_eq_removeMatching (p : AbstractPerson) (t pn dn : String) :
    p.deleteAppointment t pn dn =
      { p with appointments := removeMatchingEntries p.appointments t pn dn } := by
  rw [AbstractPerson.deleteAppointment, removeMatchingEntries]
  congr 1
  apply List.filter_congr
  intro e _
  simp [Bool.beq_eq_decide_eq, Bool.and_assoc]

/-- The global erase of `cancelAppointment` coincides with the spec-side
remove-all filter. -/
lemma cancelFilter_eq_removeMatching (l : List Appointment) (t pn dn : String) :
    (l.filter fun app =>
      !(app.dateTime == t && app.patient.name == pn && app.doctor.name == dn)) =
      removeMatchingAppointments l t pn dn := by
  rw [removeMatchingAppointments]
  apply List.filter_congr
  intro a _
  simp [Bool.beq_eq_decide_eq, Bool.and_assoc]

/-- C2: when the passed patient is registered, a booking either succeeds
atomically or mutates nothing.  If the doctor (the registry record at `di`)
has no appointment at the exact dateTime, the single transition appends the
triple to that doctor record, appends the same triple to the registry
patient record freshly looked up by the name of the passed patient object,
and appends one new `Appointment` to the global list, reporting success; if
the doctor already has an appointment at that dateTime, the registry is
returned unchanged with the doctor-not-available report. -/
theorem scheduleAppointment_effects (r : Registry) (t : String) (di : Nat)
    (pat : AbstractPerson) (hdi : di < r.doctors.length)
    (hpat : r.patientExists pat.name = true) :
    (r.doctors[di].isAvailable t = true →
      ∃ pidx, ∃ hpl : pidx < r.patients.length,
        r.findPatientIdx pat.name = some pidx ∧ r.patients[pidx].name = pat.name ∧
        r.scheduleAppointment t di pat =
          ({ visitCards := r.visitCards,
             doctors :=
               (r.doctors.set di (r.doctors[di].addAppointment t pat.name r.doctors[di].name)),
             patients :=
               (r.patients.set pidx (r.patients[pidx].addAppointment t pat.name r.doctors[di].name)),
             appointments :=
               (r.appointments ++
                 [⟨t, r.doctors[di].addAppointment t pat.name r.doctors[di].name,
                   r.patients[pidx].addAppointment t pat.name r.doctors[di].name⟩]) },
           ScheduleOutcome.scheduled)) ∧
    (r.doctors[di].isAvailable t = false →
      r.scheduleAppointment t di pat = (r, ScheduleOutcome.notAvailable)) := by
  have hgd : r.doctors.getD di default = r.doctors[di] := getD_eq_getElem _ _ hdi
  obtain ⟨pidx, hfind⟩ := findPatientIdx_of_exists r pat.name hpat
  have hfind2 : (r.patients.findIdx? fun p => p.name == pat.name) = some pidx := by
    rw [Registry.findPatientIdx] at hfind
    exact hfind
  obtain ⟨hpl, hpname, -⟩ := List.findIdx?_eq_some_iff_getElem.mp hfind2
  have hgp : r.patients.getD pidx default = r.patients[pidx] := getD_eq_getElem _ _ hpl
  constructor
  · intro hav
    refine ⟨pidx, hpl, hfind, by simpa using hpname, ?_⟩
    rw [Registry.scheduleAppointment]
    rw [hgd]
    rw [hav]
    simp only [if_true, Registry.findPatientIdx, hfind2, hgp]
    rfl
  · intro hnav
    rw [Registry.scheduleAppointment]
    rw [hgd]
    rw [hnav]
    simp

/-- C2 witness: booking slot 08:00 of a fresh day with the first doctor and
the first seeded patient succeeds. -/
theorem scheduleAppointment_effects_witness :
    (initialRegistry.scheduleAppointment "2025-01-10 08:00" 0
      (mkPatient "Alice Smith" "23.08.1997")).2 = ScheduleOutcome.scheduled := by
  obtain ⟨pidx, hpl, hfind, hname, heq⟩ :=
    (scheduleAppointment_effects initialRegistry "2025-01-10 08:00" 0
      (mkPatient "Alice Smith" "23.08.1997") (by decide) (by decide)).1 (by decide)
  rw [heq]

/-- C5 (amended): when both names are registered, cancellation removes from
the global list, the doctor record and the patient record exactly the
entries whose three fields match the triple (remove-all semantics, so a
partial match removes nothing), and when no entry matches anywhere the call
completes as a no-op leaving the registry unchanged.  (The unamended claim
fails when a name is not registered: see the counterexample.) -/
theorem cancelAppointment_removes_exactly_matches (r : Registry) (t pn dn : String)
    (di pidx : Nat) (hd : r.findDoctorIdx dn = some di)
    (hp : r.findPatientIdx pn = some pidx) :
    r.cancelAppointment t pn dn =
      ({ visitCards := r.visitCards,
         doctors := (r.doctors.set di { r.doctors.getD di default with
           appointments := (removeMatchingEntries
             (r.doctors.getD di default).appointments t pn dn) }),
         patients := (r.patients.set pidx { r.patients.getD pidx default with
           appointments := (removeMatchingEntries
             (r.patients.getD pidx default).appointments t pn dn) }),
         appointments := removeMatchingAppointments r.appointments t pn dn },
       CancelOutcome.canceled) ∧
    ((∀ a ∈ r.appointments, ¬(a.dateTime = t ∧ a.patient.name = pn ∧ a.doctor.name = dn)) →
     (∀ e ∈ (r.doctors.getD di default).appointments,
        ¬(e.1 = t ∧ e.2.1 = pn ∧ e.2.2 = dn)) →
     (∀ e ∈ (r.patients.getD pidx default).appointments,
        ¬(e.1 = t ∧ e.2.1 = pn ∧ e.2.2 = dn)) →
     r.cancelAppointment t pn dn = (r, CancelOutcome.canceled)) := by
  have hd2 : (r.doctors.findIdx? fun d => d.name == dn) = some di := by
    rw [Registry.findDoctorIdx] at hd
    exact hd
  have hp2 : (r.patients.findIdx? fun p => p.name == pn) = some pidx := by
    rw [Registry.findPatientIdx] at hp
    exact hp
  obtain ⟨hdl, -, -⟩ := List.findIdx?_eq_some_iff_getElem.mp hd2
  obtain ⟨hpl, -, -⟩ := List.findIdx?_eq_some_iff_getElem.mp hp2
  have part1 : r.cancelAppointment t pn dn =
      ({ visitCards := r.visitCards,
         doctors := (r.doctors.set di { r.doctors.getD di default with
           appointments := (removeMatchingEntries
             (r.doctors.getD di default).appointments t pn dn) }),
         patients := (r.patients.set pidx { r.patients.getD pidx default with
           appointments := (removeMatchingEntries
             (r.patients.getD pidx default).appointments t pn dn) }),
         appointments := removeMatchingAppointments r.appointments t pn dn },
       CancelOutcome.canceled) := by
    simp only [Registry.cancelAppointment, Registry.findDoctorIdx, Registry.findPatientIdx,
      hd2, hp2, deleteAppointment_eq_removeMatching, cancelFilter_eq_removeMatching]
  refine ⟨part1, fun hg hdoc hpat2 => ?_⟩
  rw [part1]
  have e1 : removeMatchingAppointments r.appointments t pn dn = r.appointments := by
    rw [removeMatchingAppointments, List.filter_eq_self]
    intro a ha
    simp only [decide_eq_true_eq]
    exact hg a ha
  have e2 : removeMatchingEntries (r.doctors.getD di default).appointments t pn dn =
      (r.doctors.getD di default).appointments := by
    rw [removeMatchingEntries, List.filter_eq_self]
    intro e he
    simp only [decide_eq_true_eq]
    exact hdoc e he
  have e3 : removeMatchingEntries (r.patients.getD pidx default).appointments t pn dn =
      (r.patients.getD pidx default).appointments := by
    rw [removeMatchingEntries, List.filter_eq_self]
    intro e he
    simp only [decide_eq_true_eq]
    exact hpat2 e he
  rw [e1, e2, e3]
  rw [getD_eq_getElem _ _ hdl, getD_eq_getElem _ _ hpl]
  have ed : ({ r.doctors[di] with appointments := r.doctors[di].appointments } :
      AbstractPerson) = r.doctors[di] := rfl
  have ep : ({ r.patients[pidx] with appointments := r.patients[pidx].appointments } :
      AbstractPerson) = r.patients[pidx] := rfl
  rw [ed, ep, set_getElem_self _ _ hdl, set_getElem_self _ _ hpl]

/-- C5 witness: cancelling a never-booked triple with registered names on
the fresh registry is a silent no-op. -/
theorem cancelAppointment_noop_witness :
    initialRegistry.cancelAppointment "2025-01-10 08:00" "Alice Smith" "John Smith" =
      (initialRegistry, CancelOutcome.canceled) := by
  have h := cancelAppointment_removes_exactly_matches initialRegistry "2025-01-10 08:00"
    "Alice Smith" "John Smith" 0 0 (by decide) (by decide)
  exact h.2 (by decide) (by decide) (by decide)

/-- C5 counterexample: with an unregistered doctor name, no appointment
matches the triple (the global list of the fresh registry is empty), yet
the call does not silently succeed — `findDoctorByName` throws the
doctor-not-found error. -/
theorem cancelAppointment_miss_raises :
    initialRegistry.appointments = [] ∧
    (initialRegistry.cancelAppointment "2025-01-10 08:00" "Alice Smith" "Nobody").2 =
      CancelOutcome.doctorNotFound :=
  ⟨rfl, by decide⟩

/-!  C3: characterisation of the slot generator. -/

/-- The option value contributed by one candidate time slot of a doctor. -/
def slotPair (d : AbstractPerson) (date time : String) : Option (String × String) :=
  if d.isAvailable (date ++ " " ++ time) then
    some (date ++ " " ++ time, d.name)
  else none

/-- Modelled from the spec wording: the twenty `HH:MM` slot strings with
hour in `[8, 18)` and minute in `\x7b0, 30\x7d`, in ascending time order. -/
def specSlotTimes : List String :=
  ["08:00", "08:30", "09:00", "09:30", "10:00", "10:30", "11:00", "11:30",
   "12:00", "12:30", "13:00", "13:30", "14:00", "14:30", "15:00", "15:30",
   "16:00", "16:30", "17:00", "17:30"]

/-- Modelled from the spec wording: for each doctor (in registry list order)
and each slot (time ascending), emit `(date ++ " " ++ slot, doctorName)`
exactly when no appointment of that doctor has that exact dateTime. -/
def specAvailableTimes (r : Registry) (date : String) : List (String × String) :=
  r.doctors.flatMap fun d =>
    specSlotTimes.filterMap fun slot =>
      if ∀ a ∈ d.appointments, a.1 ≠ date ++ " " ++ slot then
        some (date ++ " " ++ slot, d.name)
      else none

/-- `isAvailable` decides the absence of an exactly matching dateTime. -/
lemma isAvailable_eq_decide (d : AbstractPerson) (dt : String) :
    d.isAvailable dt = decide (∀ a ∈ d.appointments, a.1 ≠ dt) := by
  rw [Bool.eq_iff_iff]
  simp [AbstractPerson.isAvailable]

/-- The ten work hours with minutes 0 and 30 enumerate exactly the twenty
spec slot strings in the same order. -/
lemma hourMinute_slots_eq :
    ((List.range' WORK_START_HOUR (WORK_END_HOUR - WORK_START_HOUR)).flatMap fun hour =>
      [0, APPOINTMENT_DURATION].map fun minute =>
        formatTwoDigits hour ++ ":" ++ formatTwoDigits minute) = specSlotTimes := by
  decide

/-- Shared form of C3: the slot generator agrees with the spec-side
description for every registry state and date. -/
lemma availableTimes_eq_spec (r : Registry) (date : String) :
    r.getAvailableTimes date = specAvailableTimes r date := by
  rw [Registry.getAvailableTimes, specAvailableTimes]
  apply List.flatMap_congr
  intro d _
  show ((List.range' WORK_START_HOUR (WORK_END_HOUR - WORK_START_HOUR)).flatMap fun hour =>
      List.filterMap
        (slotPair d date ∘ fun minute => formatTwoDigits hour ++ ":" ++ formatTwoDigits minute)
        [0, APPOINTMENT_DURATION]) = _
  simp only [← List.filterMap_map, ← List.filterMap_flatMap]
  rw [hourMinute_slots_eq]
  apply List.filterMap_congr
  intro slot _
  by_cases h : ∀ a ∈ d.appointments, a.1 ≠ date ++ " " ++ slot
  · have hb : d.isAvailable (date ++ " " ++ slot) = true := by
      rw [isAvailable_eq_decide]
      exact decide_eq_true h
    simp only [slotPair, hb, if_true]
    rw [if_pos h]
  · have hb : d.isAvailable (date ++ " " ++ slot) = false := by
      rw [isAvailable_eq_decide]
      exact decide_eq_false h
    simp only [slotPair, hb, Bool.false_eq_true, if_false]
    rw [if_neg h]

/-- C3: for every date string and registry state, `getAvailableTimes`
returns exactly the pairs `(date ++ " " ++ HH:MM, doctorName)` for each
doctor and each slot with hour in `[8, 18)` and minute 0 or 30 such that
the doctor has no appointment with that exact dateTime string, ordered
doctor-major (registry doctor list order) and time-ascending within each
doctor. -/
theorem getAvailableTimes_spec (r : Registry) (date : String) :
    r.getAvailableTimes date = specAvailableTimes r date :=
  availableTimes_eq_spec r date

/-- C7 witness: adding a fresh patient name twice with two dates of birth
keeps the registry of the first add. -/
theorem addPatient_first_write_wins_witness :
    ((initialRegistry.addPatient "Zoe Park" "01.01.1990").1.addPatient
      "Zoe Park" "02.02.1992").1 = (initialRegistry.addPatient "Zoe Park" "01.01.1990").1 :=
  (addPatient_first_write_wins initialRegistry "Zoe Park" "01.01.1990" "02.02.1992"
    (by decide)).1

/-!  Seeding machinery shared by C1, C4 and C8. -/

/-- The observable identity of an appointment: dateTime, patient name and
doctor name. -/
def tripleOf (a : Appointment) : String × String × String :=
  (a.dateTime, a.patient.name, a.doctor.name)

/-- Modelled from the spec wording of the default-seed generator: the k-th
booking of the today half pairs doctor `k / 4` with patient `k % 4` at time
index `(0 - k) mod 8` (cycling backward from index 0), and the k-th booking
of the tomorrow half pairs doctor `4 + k / 4` with patient `4 + k % 4` at
time index `(7 - k) mod 8` (cycling backward from index 7). -/
def specSeedTriples (today tomorrow : String) : List (String × String × String) :=
  ((List.range 16).map fun k =>
    (today ++ defaultTime.getD ((8 - k % 8) % 8) "",
     ((initialRegistry.patients.getD (k % 4) default).name,
      (initialRegistry.doctors.getD (k / 4) default).name))) ++
  ((List.range 16).map fun k =>
    (tomorrow ++ defaultTime.getD ((15 - k % 8) % 8) "",
     ((initialRegistry.patients.getD (4 + k % 4) default).name,
      (initialRegistry.doctors.getD (4 + k / 4) default).name)))

/-- Appending one string cancels on the left. -/
lemma string_append_right_inj (a : String) (b c : String) (h : a ++ b = a ++ c) :
    b = c := by
  have hd := congrArg String.data h
  simp only [String.data_append] at hd
  have hbc := List.append_cancel_left hd
  cases b
  cases c
  congr

/-- `getD` after `set` at the written index. -/
lemma getD_set_self {α : Type} [Inhabited α] (l : List α) (i : Nat) (x : α)
    (hi : i < l.length) : (l.set i x).getD i default = x := by
  rw [List.getD_eq_getElem?_getD, List.getElem?_set_self hi]
  rfl

/-- `getD` after `set` at another index. -/
lemma getD_set_ne {α : Type} [Inhabited α] (l : List α) (i k : Nat) (x : α)
    (h : i ≠ k) : (l.set i x).getD k default = l.getD k default := by
  rw [List.getD_eq_getElem?_getD, List.getElem?_set_ne h, ← List.getD_eq_getElem?_getD]

/-- Replacing a person by one with the same name fixes the name at every
index. -/
lemma getD_set_name (l : List AbstractPerson) (j : Nat) (x : AbstractPerson)
    (h : x.name = (l.getD j default).name) (k : Nat) :
    ((l.set j x).getD k default).name = (l.getD k default).name := by
  rcases eq_or_ne j k with rfl | hne
  · rcases Nat.lt_or_ge j l.length with hj | hj
    · rw [List.getD_eq_getElem?_getD, List.getElem?_set_self hj, Option.getD_some, h]
    · rw [List.set_eq_of_length_le hj]
  · rw [List.getD_eq_getElem?_getD, List.getElem?_set_ne hne, ← List.getD_eq_getElem?_getD]

/-- Replacing a person by one with the same name fixes the name list. -/
lemma map_name_set (l : List AbstractPerson) (i : Nat) (x : AbstractPerson)
    (h : x.name = (l.getD i default).name) :
    (l.set i x).map AbstractPerson.name = l.map AbstractPerson.name := by
  rcases Nat.lt_or_ge i l.length with hi | hi
  · rw [List.map_set]
    conv_rhs => rw [← set_getElem_self (l.map AbstractPerson.name) i (by simpa using hi)]
    congr 1
    rw [h, getD_eq_getElem _ _ hi]
    simp
  · rw [List.set_eq_of_length_le hi]

/-- One seed booking appends exactly one triple to the global list. -/
lemma seedOne_triples (r : Registry) (date : String) (i j ti : Nat) :
    (seedOne r date i j ti).appointments.map tripleOf =
      r.appointments.map tripleOf ++
        [(date ++ defaultTime.getD ti "",
          ((r.patients.getD j default).name, (r.doctors.getD i default).name))] := by
  simp [seedOne, tripleOf, AbstractPerson.addAppointment]

/-- One seed booking does not change any patient name. -/
lemma seedOne_patients_name (r : Registry) (date : String) (i j ti k : Nat) :
    ((seedOne r date i j ti).patients.getD k default).name =
      (r.patients.getD k default).name := by
  rw [seedOne]
  apply getD_set_name
  rfl

/-- One seed booking does not change any doctor name. -/
lemma seedOne_doctors_name (r : Registry) (date : String) (i j ti k : Nat) :
    ((seedOne r date i j ti).doctors.getD k default).name =
      (r.doctors.getD k default).name := by
  rw [seedOne]
  show ((r.doctors.set i ((r.doctors.getD i default).addAppointment _ _ _)).getD k default).name = _
  apply getD_set_name
  rfl

/-- One seed booking preserves the doctor count. -/
lemma seedOne_doctors_length (r : Registry) (date : String) (i j ti : Nat) :
    (seedOne r date i j ti).doctors.length = r.doctors.length := by
  simp [seedOne]

/-- One seed booking preserves the patient count. -/
lemma seedOne_patients_length (r : Registry) (date : String) (i j ti : Nat) :
    (seedOne r date i j ti).patients.length = r.patients.length := by
  simp [seedOne]

/-- The inner seed loop preserves the doctor count. -/
lemma seedInner_doctors_length (date : String) (i : Nat) :
    ∀ (js : List Nat) (r : Registry) (ti : Nat),
      (seedInner r date i js ti).1.doctors.length = r.doctors.length
  | [], _, _ => rfl
  | j :: js, r, ti => by
    rw [seedInner, seedInner_doctors_length date i js, seedOne_doctors_length]

/-- The inner seed loop preserves the patient count. -/
lemma seedInner_patients_length (date : String) (i : Nat) :
    ∀ (js : List Nat) (r : Registry) (ti : Nat),
      (seedInner r date i js ti).1.patients.length = r.patients.length
  | [], _, _ => rfl
  | j :: js, r, ti => by
    rw [seedInner, seedInner_patients_length date i js, seedOne_patients_length]

/-- The outer seed loop preserves the doctor count. -/
lemma seedOuter_doctors_length (date : String) :
    ∀ (iList : List Nat) (js : List Nat) (r : Registry) (ti : Nat),
      (seedOuter r date iList js ti).1.doctors.length = r.doctors.length
  | [], _, _, _ => rfl
  | i :: iRest, js, r, ti => by
    rw [seedOuter]
    rw [seedOuter_doctors_length date iRest]
    rw [seedInner_doctors_length]

/-- The outer seed loop preserves the patient count. -/
lemma seedOuter_patients_length (date : String) :
    ∀ (iList : List Nat) (js : List Nat) (r : Registry) (ti : Nat),
      (seedOuter r date iList js ti).1.patients.length = r.patients.length
  | [], _, _, _ => rfl
  | i :: iRest, js, r, ti => by
    rw [seedOuter]
    rw [seedOuter_patients_length date iRest]
    rw [seedInner_patients_length]

/-- The seeded global list is a pure function of the two date strings,
following exactly the backward-cycling index pattern. -/
lemma seeded_triples (today tomorrow : String) :
    (initialRegistry.generateDefaultAppointments today tomorrow).appointments.map tripleOf =
    specSeedTriples today tomorrow := by
  rw [Registry.generateDefaultAppointments]
  rw [Registry.scheduleDefaulteAppointmentsForDate, Registry.scheduleDefaulteAppointmentsForDate]
  rw [seedOuter_doctors_length, seedOuter_patients_length]
  norm_num
  rw [show initialRegistry.doctors.length / 2 = 4 from rfl,
      show initialRegistry.patients.length / 2 = 4 from rfl,
      show initialRegistry.doctors.length = 8 from rfl,
      show initialRegistry.patients.length = 8 from rfl]
  rw [show List.range' 0 4 = [0, 1, 2, 3] from rfl,
      show (List.range' 4 (8 - 4) : List Nat) = [4, 5, 6, 7] from rfl]
  simp only [seedOuter, seedInner, show defaultTime.length = 8 from rfl]
  norm_num
  simp only [seedOne_triples, seedOne_patients_name, seedOne_doctors_name]
  simp [specSeedTriples, tripleOf, initialRegistry, mkDoctor, mkPatient, defaultTime,
    List.range_succ]

/-!  No-double-booking invariant (C1). -/

/-- Two appointment identities clash when they agree on doctor name and
dateTime. -/
def NoClash (x y : String × String × String) : Prop :=
  ¬(x.2.2 = y.2.2 ∧ x.1 = y.1)

/-- No two global appointments share the same (doctorName, dateTime) pair. -/
def NoDoubleBooking (r : Registry) : Prop :=
  r.appointments.Pairwise fun a b => ¬(a.doctor.name = b.doctor.name ∧ a.dateTime = b.dateTime)

/-- The invariant of the global list restated on appointment identities. -/
lemma noDoubleBooking_iff_triples (r : Registry) :
    NoDoubleBooking r ↔ (r.appointments.map tripleOf).Pairwise NoClash := by
  rw [NoDoubleBooking, List.pairwise_map]
  exact Iff.rfl

/-- A seed block: one date, one doctor name and the (time suffix, patient
name) pairs booked for that doctor. -/
def blockTriples (b : String × String × List (String × String)) :
    List (String × String × String) :=
  b.2.2.map fun e => (b.1 ++ e.1, e.2, b.2.1)

/-- Concatenation of the triples of a list of seed blocks. -/
def blocksTriples (bs : List (String × String × List (String × String))) :
    List (String × String × String) :=
  bs.flatMap blockTriples

/-- Every triple of a block carries the block doctor name. -/
lemma mem_blockTriples_name (b : String × String × List (String × String))
    (x : String × String × String) (hx : x ∈ blockTriples b) : x.2.2 = b.2.1 := by
  rw [blockTriples] at hx
  obtain ⟨e, -, rfl⟩ := List.mem_map.mp hx
  rfl

/-- Every triple of a block list carries one of the block doctor names. -/
lemma mem_blocksTriples_name (bs : List (String × String × List (String × String)))
    (y : String × String × String) (hy : y ∈ blocksTriples bs) :
    y.2.2 ∈ bs.map fun b => b.2.1 := by
  rw [blocksTriples] at hy
  obtain ⟨b, hb, hyb⟩ := List.mem_flatMap.mp hy
  rw [mem_blockTriples_name b y hyb]
  exact List.mem_map_of_mem _ hb

/-- Inside one block no two triples clash: the doctor name is shared but the
time suffixes are distinct, so the dateTimes differ. -/
lemma pairwise_blockTriples (b : String × String × List (String × String))
    (hnd : (b.2.2.map Prod.fst).Nodup) : (blockTriples b).Pairwise NoClash := by
  rw [blockTriples, List.pairwise_map]
  have hp : b.2.2.Pairwise fun e f => e.1 ≠ f.1 := List.pairwise_map.mp hnd
  refine hp.imp ?_
  intro e f hne hclash
  exact hne (string_append_right_inj b.1 e.1 f.1 hclash.2)

/-- Blocks with pairwise distinct doctor names and per-block distinct time
suffixes produce a clash-free triple list. -/
lemma pairwise_blocksTriples :
    ∀ bs : List (String × String × List (String × String)),
      (bs.map fun b => b.2.1).Nodup →
      (∀ b ∈ bs, (b.2.2.map Prod.fst).Nodup) →
      (blocksTriples bs).Pairwise NoClash
  | [], _, _ => List.Pairwise.nil
  | b :: bs, hnames, hsuf => by
    rw [blocksTriples, List.flatMap_cons]
    rw [List.map_cons, List.nodup_cons] at hnames
    apply List.pairwise_append.mpr
    refine ⟨pairwise_blockTriples b (hsuf b (List.mem_cons_self b bs)), ?_, ?_⟩
    · exact pairwise_blocksTriples bs hnames.2 fun b' hb' =>
        hsuf b' (List.mem_cons_of_mem _ hb')
    · intro x hx y hy hclash
      have hxn := mem_blockTriples_name b x hx
      have hyn := mem_blocksTriples_name bs y hy
      rw [hclash.1] at hxn
      rw [hxn] at hyn
      exact hnames.1 hyn

/-- The seed bookings grouped per doctor: date, doctor name and the four
(time suffix, patient name) pairs, in booking order. -/
def seedBlocks (today tomorrow : String) :
    List (String × String × List (String × String)) :=
  [(today, "John Smith",
     [(" 17:00", "Alice Smith"), (" 10:00", "Bob Johnson"),
      (" 15:00", "Charlie Brown"), (" 09:00", "Diana Davis")]),
   (today, "Emily Johnson",
     [(" 13:30", "Alice Smith"), (" 14:00", "Bob Johnson"),
      (" 08:30", "Charlie Brown"), (" 12:30", "Diana Davis")]),
   (today, "David Brown",
     [(" 17:00", "Alice Smith"), (" 10:00", "Bob Johnson"),
      (" 15:00", "Charlie Brown"), (" 09:00", "Diana Davis")]),
   (today, "Sarah Lee",
     [(" 13:30", "Alice Smith"), (" 14:00", "Bob Johnson"),
      (" 08:30", "Charlie Brown"), (" 12:30", "Diana Davis")]),
   (tomorrow, "Michael Wilson",
     [(" 10:00", "Eva Martinez"), (" 15:00", "Frank Lopez"),
      (" 09:00", "Grace Lee"), (" 13:30", "Henry Jackson")]),
   (tomorrow, "Alexandra Garcia",
     [(" 14:00", "Eva Martinez"), (" 08:30", "Frank Lopez"),
      (" 12:30", "Grace Lee"), (" 17:00", "Henry Jackson")]),
   (tomorrow, "Matthew Taylor",
     [(" 10:00", "Eva Martinez"), (" 15:00", "Frank Lopez"),
      (" 09:00", "Grace Lee"), (" 13:30", "Henry Jackson")]),
   (tomorrow, "Olivia Martinez",
     [(" 14:00", "Eva Martinez"), (" 08:30", "Frank Lopez"),
      (" 12:30", "Grace Lee"), (" 17:00", "Henry Jackson")])]

/-- The generative seed pattern regrouped into per-doctor blocks. -/
lemma specSeedTriples_eq_blocks (today tomorrow : String) :
    specSeedTriples today tomorrow = blocksTriples (seedBlocks today tomorrow) := rfl

/-- The seeded registry has no two appointments with the same doctor name
and dateTime, whatever the two date strings are. -/
lemma seeded_noDoubleBooking (today tomorrow : String) :
    NoDoubleBooking (initialRegistry.generateDefaultAppointments today tomorrow) := by
  rw [noDoubleBooking_iff_triples, seeded_triples, specSeedTriples_eq_blocks]
  apply pairwise_blocksTriples
  · have hnames : (seedBlocks today tomorrow).map (fun b => b.2.1) =
        ["John Smith", "Emily Johnson", "David Brown", "Sarah Lee",
         "Michael Wilson", "Alexandra Garcia", "Matthew Taylor", "Olivia Martinez"] := rfl
    rw [hnames]
    decide
  · intro b hb
    simp only [seedBlocks, List.mem_cons, List.not_mem_nil, or_false] at hb
    rcases hb with rfl | rfl | rfl | rfl | rfl | rfl | rfl | rfl <;>
      exact of_decide_eq_true rfl

/-- The doctor names of the registry are pairwise distinct. -/
def DoctorNamesNodup (r : Registry) : Prop :=
  (r.doctors.map AbstractPerson.name).Nodup

/-- Doctor-side mirror: every global appointment is recorded, as its
identity triple, in the appointment list of a registry doctor carrying its
doctor name. -/
def MirrorD (r : Registry) : Prop :=
  ∀ a ∈ r.appointments, ∃ i, i < r.doctors.length ∧
    (r.doctors.getD i default).name = a.doctor.name ∧
    tripleOf a ∈ (r.doctors.getD i default).appointments

/-- The inductive invariant carrying C1. -/
def InvC1 (r : Registry) : Prop :=
  DoctorNamesNodup r ∧ MirrorD r ∧ NoDoubleBooking r

/-- `addAppointment` does not change the name. -/
lemma addAppointment_name (p : AbstractPerson) (t pn dn : String) :
    (p.addAppointment t pn dn).name = p.name := rfl

/-- `deleteAppointment` does not change the name. -/
lemma deleteAppointment_name (p : AbstractPerson) (t pn dn : String) :
    (p.deleteAppointment t pn dn).name = p.name := rfl

/-- With pairwise distinct names, equal names force equal indices. -/
lemma names_getD_inj (l : List AbstractPerson) (h : (l.map AbstractPerson.name).Nodup)
    (i j : Nat) (hi : i < l.length) (hj : j < l.length)
    (hname : (l.getD i default).name = (l.getD j default).name) : i = j := by
  rw [getD_eq_getElem _ _ hi, getD_eq_getElem _ _ hj] at hname
  have hi2 : i < (l.map AbstractPerson.name).length := by simpa using hi
  have hj2 : j < (l.map AbstractPerson.name).length := by simpa using hj
  have hm : (l.map AbstractPerson.name)[i] = (l.map AbstractPerson.name)[j] := by
    simp only [List.getElem_map]
    exact hname
  exact (List.Nodup.getElem_inj_iff h).mp hm

/-- An unavailable slot is absent from the appointment list. -/
lemma isAvailable_forall (d : AbstractPerson) (t : String)
    (h : d.isAvailable t = true) : ∀ e ∈ d.appointments, e.1 ≠ t := by
  rw [isAvailable_eq_decide] at h
  exact of_decide_eq_true h

/-- Schedule with an unavailable doctor leaves the registry unchanged. -/
lemma sched_state_notAvailable (r : Registry) (t : String) (di : Nat)
    (pat : AbstractPerson) (hav : (r.doctors.getD di default).isAvailable t = false) :
    (r.scheduleAppointment t di pat).1 = r := by
  simp only [Registry.scheduleAppointment, hav, Bool.false_eq_true, if_false]

/-- Schedule with an unregistered patient mutates only the doctor record
(the exception propagates after that first append). -/
lemma sched_state_noPatient (r : Registry) (t : String) (di : Nat)
    (pat : AbstractPerson) (hav : (r.doctors.getD di default).isAvailable t = true)
    (hfp : (r.patients.findIdx? fun p => p.name == pat.name) = none) :
    (r.scheduleAppointment t di pat).1 =
      { r with doctors := (r.doctors.set di
          ((r.doctors.getD di default).addAppointment t pat.name
            (r.doctors.getD di default).name)) } := by
  simp only [Registry.scheduleAppointment, hav, if_true, Registry.findPatientIdx, hfp]

/-- Successful schedule: the three appends as one transition. -/
lemma sched_state_full (r : Registry) (t : String) (di pidx : Nat)
    (pat : AbstractPerson) (hav : (r.doctors.getD di default).isAvailable t = true)
    (hfp : (r.patients.findIdx? fun p => p.name == pat.name) = some pidx) :
    (r.scheduleAppointment t di pat).1 =
      { r with
        doctors := (r.doctors.set di
          ((r.doctors.getD di default).addAppointment t pat.name
            (r.doctors.getD di default).name)),
        patients := (r.patients.set pidx
          ((r.patients.getD pidx default).addAppointment t pat.name
            (r.doctors.getD di default).name)),
        appointments := (r.appointments ++
          [⟨t, (r.doctors.getD di default).addAppointment t pat.name
              (r.doctors.getD di default).name,
            (r.patients.getD pidx default).addAppointment t pat.name
              (r.doctors.getD di default).name⟩]) } := by
  simp only [Registry.scheduleAppointment, hav, if_true, Registry.findPatientIdx, hfp]
  rfl

/-- The invariant ignores the patient collection. -/
lemma InvC1_patients_irrelevant (r : Registry) (ps : List AbstractPerson)
    (h : InvC1 r) : InvC1 { r with patients := ps } := h

/-- Appending one entry at an available slot to a registry doctor preserves
the invariant (global list untouched). -/
lemma InvC1_bookDoctor (r : Registry) (di : Nat) (t pn : String)
    (hdi : di < r.doctors.length)
    (h : InvC1 r) :
    InvC1 { r with doctors := (r.doctors.set di
        ((r.doctors.getD di default).addAppointment t pn
          (r.doctors.getD di default).name)) } := by
  obtain ⟨hn, hm, hp⟩ := h
  refine ⟨?_, ?_, hp⟩
  · show ((r.doctors.set di _).map AbstractPerson.name).Nodup
    rw [map_name_set]
    · exact hn
    · rfl
  · intro a ha
    obtain ⟨i, hi, hni, hmi⟩ := hm a ha
    refine ⟨i, by simpa using hi, ?_, ?_⟩
    · rcases eq_or_ne di i with rfl | hne
      · rw [getD_set_self _ _ _ hdi, addAppointment_name]
        exact hni
      · rw [getD_set_ne _ _ _ _ hne]
        exact hni
    · rcases eq_or_ne di i with rfl | hne
      · rw [getD_set_self _ _ _ hdi]
        exact List.mem_append_left _ hmi
      · rw [getD_set_ne _ _ _ _ hne]
        exact hmi

/-- A successful booking transition preserves the invariant: the appended
appointment mirrors into the updated doctor, and it cannot clash with an
existing appointment because the slot was available. -/
lemma InvC1_fullBooking (r : Registry) (di pidx : Nat) (t pn : String)
    (hdi : di < r.doctors.length)
    (hav : (r.doctors.getD di default).isAvailable t = true)
    (hpn : (r.patients.getD pidx default).name = pn) (h : InvC1 r) :
    InvC1 { r with
      doctors := (r.doctors.set di
        ((r.doctors.getD di default).addAppointment t pn
          (r.doctors.getD di default).name)),
      patients := (r.patients.set pidx
        ((r.patients.getD pidx default).addAppointment t pn
          (r.doctors.getD di default).name)),
      appointments := (r.appointments ++
        [⟨t, (r.doctors.getD di default).addAppointment t pn
            (r.doctors.getD di default).name,
          (r.patients.getD pidx default).addAppointment t pn
            (r.doctors.getD di default).name⟩]) } := by
  obtain ⟨hn, hm, hp⟩ := h
  refine ⟨?_, ?_, ?_⟩
  · show ((r.doctors.set di _).map AbstractPerson.name).Nodup
    rw [map_name_set]
    · exact hn
    · rfl
  · intro a ha
    rcases List.mem_append.mp ha with ha | ha
    · obtain ⟨i, hi, hni, hmi⟩ := hm a ha
      refine ⟨i, by simpa using hi, ?_, ?_⟩
      · rcases eq_or_ne di i with rfl | hne
        · rw [getD_set_self _ _ _ hdi, addAppointment_name]
          exact hni
        · rw [getD_set_ne _ _ _ _ hne]
          exact hni
      · rcases eq_or_ne di i with rfl | hne
        · rw [getD_set_self _ _ _ hdi]
          exact List.mem_append_left _ hmi
        · rw [getD_set_ne _ _ _ _ hne]
          exact hmi
    · rw [List.mem_singleton] at ha
      subst ha
      refine ⟨di, by simpa using hdi, ?_, ?_⟩
      · rw [getD_set_self _ _ _ hdi]
      · rw [getD_set_self _ _ _ hdi]
        show tripleOf _ ∈ (r.doctors.getD di default).appointments ++ [(t, pn, _)]
        simp only [tripleOf, addAppointment_name, hpn]
        exact List.mem_append_right _ (List.mem_singleton.mpr rfl)
  · apply List.pairwise_append.mpr
    refine ⟨hp, List.pairwise_singleton _ _, ?_⟩
    intro a ha b hb hcl
    rw [List.mem_singleton] at hb
    subst hb
    obtain ⟨i, hi, hni, hmi⟩ := hm a ha
    have hnamedi : (r.doctors.getD i default).name = (r.doctors.getD di default).name := by
      rw [hni]
      rw [hcl.1]
      rfl
    have hidi : i = di := names_getD_inj r.doctors hn i di hi hdi hnamedi
    subst hidi
    have hne := isAvailable_forall _ _ hav (tripleOf a) hmi
    exact hne hcl.2

/-- Cancellation with an unknown doctor name: only the global erase happens
before the throw. -/
lemma cancel_state_noDoctor (r : Registry) (t pn dn : String)
    (hd : (r.doctors.findIdx? fun d => d.name == dn) = none) :
    (r.cancelAppointment t pn dn).1 =
      { r with appointments := (r.appointments.filter fun app =>
          !(app.dateTime == t && app.patient.name == pn && app.doctor.name == dn)) } := by
  simp only [Registry.cancelAppointment, Registry.findDoctorIdx, hd]

/-- Cancellation with an unknown patient name: the global erase and the
doctor-side erase happen before the throw. -/
lemma cancel_state_noPatient (r : Registry) (t pn dn : String) (di : Nat)
    (hd : (r.doctors.findIdx? fun d => d.name == dn) = some di)
    (hp : (r.patients.findIdx? fun p => p.name == pn) = none) :
    (r.cancelAppointment t pn dn).1 =
      { r with
        doctors := (r.doctors.set di
          ((r.doctors.getD di default).deleteAppointment t pn dn)),
        appointments := (r.appointments.filter fun app =>
          !(app.dateTime == t && app.patient.name == pn && app.doctor.name == dn)) } := by
  simp only [Registry.cancelAppointment, Registry.findDoctorIdx, Registry.findPatientIdx, hd, hp]

/-- Complete cancellation: all three erases as one transition. -/
lemma cancel_state_full (r : Registry) (t pn dn : String) (di pidx : Nat)
    (hd : (r.doctors.findIdx? fun d => d.name == dn) = some di)
    (hp : (r.patients.findIdx? fun p => p.name == pn) = some pidx) :
    (r.cancelAppointment t pn dn).1 =
      { r with
        doctors := (r.doctors.set di
          ((r.doctors.getD di default).deleteAppointment t pn dn)),
        patients := (r.patients.set pidx
          ((r.patients.getD pidx default).deleteAppointment t pn dn)),
        appointments := (r.appointments.filter fun app =>
          !(app.dateTime == t && app.patient.name == pn && app.doctor.name == dn)) } := by
  simp only [Registry.cancelAppointment, Registry.findDoctorIdx, Registry.findPatientIdx, hd, hp]

/-- Filtering the global list preserves the invariant. -/
lemma InvC1_filterGlobal (r : Registry) (phi : Appointment → Bool) (h : InvC1 r) :
    InvC1 { r with appointments := r.appointments.filter phi } := by
  obtain ⟨hn, hm, hp⟩ := h
  refine ⟨hn, ?_, ?_⟩
  · intro a ha
    exact hm a (List.mem_of_mem_filter ha)
  · exact List.Pairwise.sublist (List.filter_sublist _) hp

/-- Erasing all triple matches from the named doctor preserves the
invariant, provided every surviving global appointment of that doctor does
not match the erased triple. -/
lemma InvC1_deleteDoctorEntry (r : Registry) (di : Nat) (t pn dn : String)
    (hdi : di < r.doctors.length)
    (hdn : (r.doctors.getD di default).name = dn)
    (hglob : ∀ a ∈ r.appointments, a.doctor.name = dn →
      ¬(a.dateTime = t ∧ a.patient.name = pn))
    (h : InvC1 r) :
    InvC1 { r with doctors := (r.doctors.set di
        ((r.doctors.getD di default).deleteAppointment t pn dn)) } := by
  obtain ⟨hn, hm, hp⟩ := h
  refine ⟨?_, ?_, hp⟩
  · show ((r.doctors.set di _).map AbstractPerson.name).Nodup
    rw [map_name_set]
    · exact hn
    · rfl
  · intro a ha
    obtain ⟨i, hi, hni, hmi⟩ := hm a ha
    refine ⟨i, by simpa using hi, ?_, ?_⟩
    · rcases eq_or_ne di i with rfl | hne
      · rw [getD_set_self _ _ _ hdi, deleteAppointment_name]
        exact hni
      · rw [getD_set_ne _ _ _ _ hne]
        exact hni
    · rcases eq_or_ne di i with rfl | hne
      · rw [getD_set_self _ _ _ hdi]
        have hadn : a.doctor.name = dn := by
          rw [← hni, hdn]
        have hnomatch : ¬(a.dateTime = t ∧ a.patient.name = pn) := hglob a ha hadn
        have hb : (a.dateTime == t && a.patient.name == pn && a.doctor.name == dn) = false := by
          by_cases c1 : a.dateTime = t
          · by_cases c2 : a.patient.name = pn
            · exact absurd ⟨c1, c2⟩ hnomatch
            · simp [c2]
          · simp [c1]
        show tripleOf a ∈ ((r.doctors.getD di default).deleteAppointment t pn dn).appointments
        rw [AbstractPerson.deleteAppointment]
        apply List.mem_filter.mpr
        refine ⟨hmi, ?_⟩
        simpa [tripleOf] using congrArg (fun b => !b) hb
      · rw [getD_set_ne _ _ _ _ hne]
        exact hmi

/-- Every cancellation transition preserves the invariant, also when one of
the lookups throws midway. -/
lemma InvC1_cancel (r : Registry) (t pn dn : String) (h : InvC1 r) :
    InvC1 (r.cancelAppointment t pn dn).1 := by
  cases hd : (r.doctors.findIdx? fun d => d.name == dn) with
  | none =>
    rw [cancel_state_noDoctor r t pn dn hd]
    exact InvC1_filterGlobal r _ h
  | some di =>
    obtain ⟨hdi, hdname, -⟩ := List.findIdx?_eq_some_iff_getElem.mp hd
    have hdn : (r.doctors.getD di default).name = dn := by
      rw [getD_eq_getElem _ _ hdi]
      simpa using hdname
    have h1 : InvC1 { r with appointments := (r.appointments.filter fun app =>
        !(app.dateTime == t && app.patient.name == pn && app.doctor.name == dn)) } :=
      InvC1_filterGlobal r _ h
    have hglob : ∀ a ∈ (r.appointments.filter fun app =>
        !(app.dateTime == t && app.patient.name == pn && app.doctor.name == dn)),
        a.doctor.name = dn → ¬(a.dateTime = t ∧ a.patient.name = pn) := by
      intro a ha hdoc hcon
      have hc := List.of_mem_filter ha
      simp [hcon.1, hcon.2, hdoc] at hc
    cases hp2 : (r.patients.findIdx? fun p => p.name == pn) with
    | none =>
      rw [cancel_state_noPatient r t pn dn di hd hp2]
      exact InvC1_deleteDoctorEntry
        { r with appointments := (r.appointments.filter fun app =>
            !(app.dateTime == t && app.patient.name == pn && app.doctor.name == dn)) }
        di t pn dn hdi hdn hglob h1
    | some pidx =>
      rw [cancel_state_full r t pn dn di pidx hd hp2]
      exact InvC1_patients_irrelevant _ _
        (InvC1_deleteDoctorEntry
          { r with appointments := (r.appointments.filter fun app =>
              !(app.dateTime == t && app.patient.name == pn && app.doctor.name == dn)) }
          di t pn dn hdi hdn hglob h1)

/-- Every schedule transition with a registry doctor preserves the
invariant, also when the patient lookup throws midway. -/
lemma InvC1_sched (r : Registry) (t : String) (di : Nat) (pat : AbstractPerson)
    (hdi : di < r.doctors.length) (h : InvC1 r) :
    InvC1 (r.scheduleAppointment t di pat).1 := by
  cases hav : (r.doctors.getD di default).isAvailable t with
  | false =>
    rw [sched_state_notAvailable r t di pat hav]
    exact h
  | true =>
    cases hfp : (r.patients.findIdx? fun p => p.name == pat.name) with
    | none =>
      rw [sched_state_noPatient r t di pat hav hfp]
      exact InvC1_bookDoctor r di t pat.name hdi h
    | some pidx =>
      obtain ⟨hpl, hpname, -⟩ := List.findIdx?_eq_some_iff_getElem.mp hfp
      have hpn : (r.patients.getD pidx default).name = pat.name := by
        rw [getD_eq_getElem _ _ hpl]
        simpa using hpname
      rw [sched_state_full r t di pidx pat hav hfp]
      exact InvC1_fullBooking r di pidx t pat.name hdi hav hpn h

/-- The record produced by one seed booking, spelled out. -/
lemma seedOne_state (r : Registry) (date : String) (i j ti : Nat) :
    seedOne r date i j ti =
      { r with
        doctors := (r.doctors.set i
          ((r.doctors.getD i default).addAppointment (date ++ defaultTime.getD ti "")
            (r.patients.getD j default).name (r.doctors.getD i default).name)),
        patients := (r.patients.set j
          ((r.patients.getD j default).addAppointment (date ++ defaultTime.getD ti "")
            (r.patients.getD j default).name (r.doctors.getD i default).name)),
        appointments := (r.appointments ++
          [⟨date ++ defaultTime.getD ti "",
            (r.doctors.getD i default).addAppointment (date ++ defaultTime.getD ti "")
              (r.patients.getD j default).name (r.doctors.getD i default).name,
            (r.patients.getD j default).addAppointment (date ++ defaultTime.getD ti "")
              (r.patients.getD j default).name (r.doctors.getD i default).name⟩]) } := rfl

/-- One seed booking preserves the doctor-side mirror. -/
lemma MirrorD_seedOne (r : Registry) (date : String) (i j ti : Nat)
    (hi : i < r.doctors.length) (h : MirrorD r) : MirrorD (seedOne r date i j ti) := by
  rw [seedOne_state]
  intro a ha
  rcases List.mem_append.mp ha with ha | ha
  · obtain ⟨w, hw, hnw, hmw⟩ := h a ha
    refine ⟨w, by simpa using hw, ?_, ?_⟩
    · rcases eq_or_ne i w with rfl | hne
      · rw [getD_set_self _ _ _ hi, addAppointment_name]
        exact hnw
      · rw [getD_set_ne _ _ _ _ hne]
        exact hnw
    · rcases eq_or_ne i w with rfl | hne
      · rw [getD_set_self _ _ _ hi]
        exact List.mem_append_left _ hmw
      · rw [getD_set_ne _ _ _ _ hne]
        exact hmw
  · rw [List.mem_singleton] at ha
    subst ha
    refine ⟨i, by simpa using hi, ?_, ?_⟩
    · rw [getD_set_self _ _ _ hi]
    · rw [getD_set_self _ _ _ hi]
      simp only [tripleOf, addAppointment_name]
      exact List.mem_append_right _ (List.mem_singleton.mpr rfl)

/-- One seed booking preserves the doctor name list. -/
lemma seedOne_doctors_names (r : Registry) (date : String) (i j ti : Nat) :
    (seedOne r date i j ti).doctors.map AbstractPerson.name =
      r.doctors.map AbstractPerson.name := by
  rw [seedOne_state]
  show (r.doctors.set i _).map _ = _
  exact map_name_set _ _ _ rfl

/-- The inner seed loop preserves the doctor-side mirror. -/
lemma seedInner_mirror (date : String) (i : Nat) :
    ∀ (js : List Nat) (r : Registry) (ti : Nat),
      i < r.doctors.length → MirrorD r → MirrorD (seedInner r date i js ti).1
  | [], _, _, _, h => h
  | j :: js, r, ti, hi, h => by
    rw [seedInner]
    exact seedInner_mirror date i js _ _
      (by rw [seedOne_doctors_length]; exact hi) (MirrorD_seedOne r date i j ti hi h)

/-- The inner seed loop preserves the doctor name list. -/
lemma seedInner_doctors_names (date : String) (i : Nat) :
    ∀ (js : List Nat) (r : Registry) (ti : Nat),
      (seedInner r date i js ti).1.doctors.map AbstractPerson.name =
        r.doctors.map AbstractPerson.name
  | [], _, _ => rfl
  | j :: js, r, ti => by
    rw [seedInner, seedInner_doctors_names date i js, seedOne_doctors_names]

/-- The outer seed loop preserves the doctor-side mirror. -/
lemma seedOuter_mirror (date : String) :
    ∀ (iList : List Nat) (js : List Nat) (r : Registry) (ti : Nat),
      (∀ i ∈ iList, i < r.doctors.length) → MirrorD r →
      MirrorD (seedOuter r date iList js ti).1
  | [], _, _, _, _, h => h
  | i :: iRest, js, r, ti, hb, h => by
    rw [seedOuter]
    apply seedOuter_mirror date iRest js _ _
    · intro i2 hi2
      rw [seedInner_doctors_length]
      exact hb i2 (List.mem_cons_of_mem _ hi2)
    · exact seedInner_mirror date i js r ti (hb i (List.mem_cons_self _ _)) h

/-- The outer seed loop preserves the doctor name list. -/
lemma seedOuter_doctors_names (date : String) :
    ∀ (iList : List Nat) (js : List Nat) (r : Registry) (ti : Nat),
      (seedOuter r date iList js ti).1.doctors.map AbstractPerson.name =
        r.doctors.map AbstractPerson.name
  | [], _, _, _ => rfl
  | i :: iRest, js, r, ti => by
    rw [seedOuter, seedOuter_doctors_names date iRest, seedInner_doctors_names]

/-- The seeded registry as two explicit seed loops. -/
lemma seeded_unfold (today tomorrow : String) :
    initialRegistry.generateDefaultAppointments today tomorrow =
      (seedOuter (seedOuter initialRegistry today [0, 1, 2, 3] [0, 1, 2, 3] 0).1
        tomorrow [4, 5, 6, 7] [4, 5, 6, 7] 7).1 := by
  rw [Registry.generateDefaultAppointments]
  rw [Registry.scheduleDefaulteAppointmentsForDate, Registry.scheduleDefaulteAppointmentsForDate]
  rw [seedOuter_doctors_length, seedOuter_patients_length]
  norm_num
  rw [show initialRegistry.doctors.length / 2 = 4 from rfl,
      show initialRegistry.patients.length / 2 = 4 from rfl,
      show initialRegistry.doctors.length = 8 from rfl,
      show initialRegistry.patients.length = 8 from rfl]
  rw [show List.range' 0 4 = [0, 1, 2, 3] from rfl,
      show (List.range' 4 (8 - 4) : List Nat) = [4, 5, 6, 7] from rfl]

/-- The invariant holds in a freshly constructed registry. -/
lemma InvC1_initial : InvC1 initialRegistry := by
  refine ⟨?_, ?_, ?_⟩
  · show ((initialRegistry.doctors.map AbstractPerson.name)).Nodup
    decide
  · intro a ha
    simp [initialRegistry] at ha
  · exact List.Pairwise.nil

/-- The invariant holds right after seeding a fresh registry. -/
lemma InvC1_seeded (today tomorrow : String) :
    InvC1 (initialRegistry.generateDefaultAppointments today tomorrow) := by
  refine ⟨?_, ?_, seeded_noDoubleBooking today tomorrow⟩
  · show ((initialRegistry.generateDefaultAppointments today tomorrow).doctors.map _).Nodup
    rw [seeded_unfold, seedOuter_doctors_names, seedOuter_doctors_names]
    decide
  · rw [seeded_unfold]
    apply seedOuter_mirror
    · intro i2 hi2
      rw [seedOuter_doctors_length]
      fin_cases hi2 <;> decide
    · apply seedOuter_mirror
      · intro i2 hi2
        fin_cases hi2 <;> decide
      · intro a ha
        simp [initialRegistry] at ha

/-- One step of the registry: a `scheduleAppointment` call whose doctor
argument aliases the registry doctor record at index `di`, or a
`cancelAppointment` call with arbitrary strings.  The resulting state is
the one the C++ object holds afterwards, also when the call throws. -/
inductive RegStep : Registry → Registry → Prop where
  | sched (r : Registry) (dateTime : String) (di : Nat) (patient : AbstractPerson)
      (hdi : di < r.doctors.length) : RegStep r (r.scheduleAppointment dateTime di patient).1
  | cancel (r : Registry) (dateTime patientName doctorName : String) :
      RegStep r (r.cancelAppointment dateTime patientName doctorName).1

/-- Every step preserves the invariant. -/
lemma InvC1_step (r r2 : Registry) (hs : RegStep r r2) (h : InvC1 r) : InvC1 r2 := by
  cases hs with
  | sched t di pat hdi => exact InvC1_sched r t di pat hdi h
  | cancel t pn dn => exact InvC1_cancel r t pn dn h

/-- C1: starting from a freshly constructed registry, seeded or not, after
every sequence of `scheduleAppointment` and `cancelAppointment` calls in
which the doctor argument is the registry doctor record, no two
appointments of the global list share the same (doctorName, dateTime)
pair. -/
theorem no_double_booking_reachable (r0 : Registry)
    (h0 : r0 = initialRegistry ∨
      ∃ today tomorrow, r0 = initialRegistry.generateDefaultAppointments today tomorrow)
    (r : Registry) (hr : Relation.ReflTransGen RegStep r0 r) :
    NoDoubleBooking r := by
  have hinv0 : InvC1 r0 := by
    rcases h0 with h0 | ⟨td, tm, h0⟩
    · rw [h0]
      exact InvC1_initial
    · rw [h0]
      exact InvC1_seeded td tm
  suffices h : InvC1 r from h.2.2
  induction hr with
  | refl => exact hinv0
  | tail hab hstep ih => exact InvC1_step _ _ hstep ih

/-- C1 witness: the fresh registry itself is reachable in zero steps and
clash-free. -/
theorem no_double_booking_reachable_witness : NoDoubleBooking initialRegistry :=
  no_double_booking_reachable initialRegistry (Or.inl rfl) initialRegistry
    Relation.ReflTransGen.refl

/-!  C6: slot symmetry. -/

/-- Membership in the spec-side slot list. -/
lemma mem_specAvailableTimes (r : Registry) (date : String) (x : String × String) :
    x ∈ specAvailableTimes r date ↔
      ∃ d ∈ r.doctors, ∃ s ∈ specSlotTimes,
        (∀ a ∈ d.appointments, a.1 ≠ date ++ " " ++ s) ∧ x = (date ++ " " ++ s, d.name) := by
  rw [specAvailableTimes]
  simp only [List.mem_flatMap, List.mem_filterMap]
  constructor
  · rintro ⟨d, hd, s, hs2, hx⟩
    rw [Option.ite_none_right_eq_some] at hx
    refine ⟨d, hd, s, hs2, hx.1, ?_⟩
    exact (Option.some.injEq _ _ ▸ hx.2).symm
  · rintro ⟨d, hd, s, hs2, hcond, rfl⟩
    exact ⟨d, hd, s, hs2, by rw [if_pos hcond]⟩

/-- Membership in `getAvailableTimesForDoctor`. -/
lemma mem_availableTimesForDoctor (r : Registry) (date n : String) (x : String × String) :
    x ∈ r.getAvailableTimesForDoctor date n ↔
      (∃ d ∈ r.doctors, ∃ s ∈ specSlotTimes,
        (∀ a ∈ d.appointments, a.1 ≠ date ++ " " ++ s) ∧ x = (date ++ " " ++ s, d.name)) ∧
      x.2 = n := by
  rw [Registry.getAvailableTimesForDoctor, availableTimes_eq_spec, List.mem_filter,
    mem_specAvailableTimes]
  simp

/-- The slot suffix is determined by the full dateTime string. -/
lemma dateTime_suffix_inj (date s t2 : String) (h : date ++ " " ++ s = date ++ " " ++ t2) :
    s = t2 := by
  have hd := congrArg String.data h
  simp only [String.data_append, List.append_assoc] at hd
  have h1 := List.append_cancel_left hd
  have h2 := List.append_cancel_left h1
  cases s
  cases t2
  congr

/-- With pairwise distinct names, the by-name search finds exactly the index
carrying the name. -/
lemma findIdx_name_of_nodup (l : List AbstractPerson)
    (hn : (l.map AbstractPerson.name).Nodup) (di : Nat) (hdi : di < l.length) :
    (l.findIdx? fun d => d.name == (l.getD di default).name) = some di := by
  apply List.findIdx?_eq_some_iff_getElem.mpr
  refine ⟨hdi, ?_, ?_⟩
  · rw [getD_eq_getElem _ _ hdi]
    simp
  · intro w hw
    have hwlen : w < l.length := Nat.lt_trans hw hdi
    simp only [Bool.not_eq_true]
    apply beq_eq_false_iff_ne.mpr
    intro hcontra
    have : w = di := by
      apply names_getD_inj l hn w di hwlen hdi
      rw [getD_eq_getElem _ _ hwlen]
      rw [hcontra]
    omega

/-- A by-name search only depends on the name list. -/
lemma findIdx_name_names_eq (l l2 : List AbstractPerson)
    (h : l.map AbstractPerson.name = l2.map AbstractPerson.name) (n : String) :
    (l.findIdx? fun p => p.name == n) = (l2.findIdx? fun p => p.name == n) := by
  have hgen : ∀ m : List AbstractPerson,
      (m.findIdx? fun p => p.name == n) =
        (m.map AbstractPerson.name).findIdx? (fun s2 => s2 == n) := by
    intro m
    rw [List.findIdx?_map]
    rfl
  rw [hgen l, hgen l2, h]

/-- The default read of an in-range index is a member of the list. -/
lemma getD_mem {α : Type} [Inhabited α] (l : List α) (i : Nat) (h : i < l.length) :
    l.getD i default ∈ l := by
  rw [getD_eq_getElem _ _ h]
  exact List.getElem_mem h

/-- C6: for a working-hours slot of a date, a registered doctor (the record
at index `di`, with registry doctor names pairwise distinct) and a
registered patient, after a successful booking the slot dateTime no longer
appears in `getAvailableTimesForDoctor` for that doctor, and after
cancelling the same triple it appears again. -/
theorem slot_symmetry_roundtrip (r : Registry) (date s : String) (di : Nat)
    (pat : AbstractPerson) (hs : s ∈ specSlotTimes) (hdi : di < r.doctors.length)
    (hnodup : DoctorNamesNodup r) (hpat : r.patientExists pat.name = true)
    (hav : (r.doctors.getD di default).isAvailable (date ++ " " ++ s) = true) :
    (∀ x ∈ ((r.scheduleAppointment (date ++ " " ++ s) di pat).1.getAvailableTimesForDoctor
        date (r.doctors.getD di default).name), x.1 ≠ date ++ " " ++ s) ∧
    (date ++ " " ++ s, (r.doctors.getD di default).name) ∈
      (((r.scheduleAppointment (date ++ " " ++ s) di pat).1.cancelAppointment
          (date ++ " " ++ s) pat.name (r.doctors.getD di default).name).1.getAvailableTimesForDoctor
        date (r.doctors.getD di default).name) := by
  obtain ⟨pidx, hfind⟩ := findPatientIdx_of_exists r pat.name hpat
  rw [Registry.findPatientIdx] at hfind
  obtain ⟨hpl, hpname, -⟩ := List.findIdx?_eq_some_iff_getElem.mp hfind
  have hpn : (r.patients.getD pidx default).name = pat.name := by
    rw [getD_eq_getElem _ _ hpl]
    simpa using hpname
  have hsched := sched_state_full r (date ++ " " ++ s) di pidx pat hav hfind
  rw [hsched]
  have hnodup1 : ((r.doctors.set di
      ((r.doctors.getD di default).addAppointment (date ++ " " ++ s) pat.name
        (r.doctors.getD di default).name)).map AbstractPerson.name).Nodup := by
    rw [map_name_set]
    · exact hnodup
    · rfl
  have hdi1 : di < (r.doctors.set di
      ((r.doctors.getD di default).addAppointment (date ++ " " ++ s) pat.name
        (r.doctors.getD di default).name)).length := by
    simpa using hdi
  have hddgetD : (r.doctors.set di
      ((r.doctors.getD di default).addAppointment (date ++ " " ++ s) pat.name
        (r.doctors.getD di default).name)).getD di default =
      (r.doctors.getD di default).addAppointment (date ++ " " ++ s) pat.name
        (r.doctors.getD di default).name :=
    getD_set_self _ _ _ hdi
  constructor
  · intro x hx heq
    rw [mem_availableTimesForDoctor] at hx
    obtain ⟨⟨d, hd, s2, hs2, hfree, hxeq⟩, hx2⟩ := hx
    subst hxeq
    have hseq : s2 = s := dateTime_suffix_inj date s2 s heq
    obtain ⟨w, hw, hwd⟩ := List.mem_iff_getElem.mp hd
    have hwd2 : (r.doctors.set di
        ((r.doctors.getD di default).addAppointment (date ++ " " ++ s) pat.name
          (r.doctors.getD di default).name)).getD w default = d := by
      rw [getD_eq_getElem _ _ hw]
      exact hwd
    have hwdi : w = di := by
      apply names_getD_inj _ hnodup1 w di (by simpa using hw) hdi1
      rw [hwd2, hddgetD, addAppointment_name]
      exact hx2
    rw [hwdi] at hwd2
    rw [hddgetD] at hwd2
    have hmem : ((date ++ " " ++ s), pat.name, (r.doctors.getD di default).name) ∈
        d.appointments := by
      rw [← hwd2]
      show _ ∈ (r.doctors.getD di default).appointments ++ [_]
      exact List.mem_append_right _ (List.mem_singleton.mpr rfl)
    have := hfree _ hmem
    rw [hseq] at this
    exact this rfl
  · have hd2 : ((r.doctors.set di
        ((r.doctors.getD di default).addAppointment (date ++ " " ++ s) pat.name
          (r.doctors.getD di default).name)).findIdx?
        fun d => d.name == (r.doctors.getD di default).name) = some di := by
      have h0 := findIdx_name_of_nodup _ hnodup1 di hdi1
      rw [hddgetD, addAppointment_name] at h0
      exact h0
    have hp2 : ((r.patients.set pidx
        ((r.patients.getD pidx default).addAppointment (date ++ " " ++ s) pat.name
          (r.doctors.getD di default).name)).findIdx?
        fun p => p.name == pat.name) = some pidx := by
      rw [findIdx_name_names_eq _ r.patients _ pat.name]
      · exact hfind
      · rw [map_name_set]
        rfl
    have hcancel := cancel_state_full
      { r with
        doctors := (r.doctors.set di
          ((r.doctors.getD di default).addAppointment (date ++ " " ++ s) pat.name
            (r.doctors.getD di default).name)),
        patients := (r.patients.set pidx
          ((r.patients.getD pidx default).addAppointment (date ++ " " ++ s) pat.name
            (r.doctors.getD di default).name)),
        appointments := (r.appointments ++
          [⟨date ++ " " ++ s, (r.doctors.getD di default).addAppointment (date ++ " " ++ s)
              pat.name (r.doctors.getD di default).name,
            (r.patients.getD pidx default).addAppointment (date ++ " " ++ s) pat.name
              (r.doctors.getD di default).name⟩]) }
      (date ++ " " ++ s) pat.name (r.doctors.getD di default).name di pidx hd2 hp2
    rw [hcancel]
    rw [mem_availableTimesForDoctor]
    have hdel : ((r.doctors.set di
        ((r.doctors.getD di default).addAppointment (date ++ " " ++ s) pat.name
          (r.doctors.getD di default).name)).set di
        (((r.doctors.set di
          ((r.doctors.getD di default).addAppointment (date ++ " " ++ s) pat.name
            (r.doctors.getD di default).name)).getD di default).deleteAppointment
          (date ++ " " ++ s) pat.name (r.doctors.getD di default).name)).getD di default =
        (((r.doctors.getD di default).addAppointment (date ++ " " ++ s) pat.name
          (r.doctors.getD di default).name).deleteAppointment
          (date ++ " " ++ s) pat.name (r.doctors.getD di default).name) := by
      rw [getD_set_self _ _ _ (by simpa using hdi)]
      rw [hddgetD]
    refine ⟨⟨((r.doctors.set di
        ((r.doctors.getD di default).addAppointment (date ++ " " ++ s) pat.name
          (r.doctors.getD di default).name)).set di
        (((r.doctors.set di
          ((r.doctors.getD di default).addAppointment (date ++ " " ++ s) pat.name
            (r.doctors.getD di default).name)).getD di default).deleteAppointment
          (date ++ " " ++ s) pat.name (r.doctors.getD di default).name)).getD di default,
      ?_, s, hs, ?_, ?_⟩, ?_⟩
    · exact getD_mem _ _ (by simpa using hdi)
    · rw [hdel]
      intro a ha
      rw [AbstractPerson.deleteAppointment] at ha
      have ham := List.mem_of_mem_filter ha
      have hacond := List.of_mem_filter ha
      rcases List.mem_append.mp ham with hold | hnew
      · exact isAvailable_forall _ _ hav a hold
      · rw [List.mem_singleton] at hnew
        subst hnew
        simp at hacond
    · rw [hdel]
      rw [deleteAppointment_name, addAppointment_name]
    · rfl

/-- C6 witness: book and cancel slot 08:00 of a fresh day with the first
doctor and the first seeded patient; the slot reappears. -/
theorem slot_symmetry_roundtrip_witness :
    ("2025-01-10" ++ " " ++ "08:00", (initialRegistry.doctors.getD 0 default).name) ∈
      (((initialRegistry.scheduleAppointment ("2025-01-10" ++ " " ++ "08:00") 0
          (mkPatient "Alice Smith" "23.08.1997")).1.cancelAppointment
          ("2025-01-10" ++ " " ++ "08:00") (mkPatient "Alice Smith" "23.08.1997").name
          (initialRegistry.doctors.getD 0 default).name).1.getAvailableTimesForDoctor
        "2025-01-10" (initialRegistry.doctors.getD 0 default).name) :=
  (slot_symmetry_roundtrip initialRegistry "2025-01-10" "08:00" 0
    (mkPatient "Alice Smith" "23.08.1997") (by decide) (by decide)
    (show ((initialRegistry.doctors.map AbstractPerson.name)).Nodup by decide)
    (by decide) (by decide)).2

/-!  C4: three-way mirror consistency. -/

/-- The patient names of the registry are pairwise distinct. -/
def PatientNamesNodup (r : Registry) : Prop :=
  (r.patients.map AbstractPerson.name).Nodup

/-- Every entry of a doctor list carries the name of its owner. -/
def DocEntriesOwn (r : Registry) : Prop :=
  ∀ i, i < r.doctors.length → ∀ e ∈ (r.doctors.getD i default).appointments,
    e.2.2 = (r.doctors.getD i default).name

/-- Every entry of a patient list carries the name of its owner. -/
def PatEntriesOwn (r : Registry) : Prop :=
  ∀ i, i < r.patients.length → ∀ e ∈ (r.patients.getD i default).appointments,
    e.2.1 = (r.patients.getD i default).name

/-- Patient-side mirror: every global appointment is recorded in the
appointment list of a registry patient carrying its patient name. -/
def MirrorP (r : Registry) : Prop :=
  ∀ a ∈ r.appointments, ∃ i, i < r.patients.length ∧
    (r.patients.getD i default).name = a.patient.name ∧
    tripleOf a ∈ (r.patients.getD i default).appointments

/-- Every doctor-list entry is matched by a global appointment. -/
def DocEntriesGlobal (r : Registry) : Prop :=
  ∀ i, i < r.doctors.length → ∀ e ∈ (r.doctors.getD i default).appointments,
    ∃ a ∈ r.appointments, tripleOf a = e

/-- Every patient-list entry is matched by a global appointment. -/
def PatEntriesGlobal (r : Registry) : Prop :=
  ∀ i, i < r.patients.length → ∀ e ∈ (r.patients.getD i default).appointments,
    ∃ a ∈ r.appointments, tripleOf a = e

/-- The inductive invariant carrying C4. -/
def ConsInv (r : Registry) : Prop :=
  DoctorNamesNodup r ∧ PatientNamesNodup r ∧ DocEntriesOwn r ∧ PatEntriesOwn r ∧
  MirrorD r ∧ MirrorP r ∧ DocEntriesGlobal r ∧ PatEntriesGlobal r

/-- A non-matching appointment passes the cancellation filter. -/
lemma cancelCond_true_of_not_match (a : Appointment) (t pn dn : String)
    (h : ¬(a.dateTime = t ∧ a.patient.name = pn ∧ a.doctor.name = dn)) :
    (!(a.dateTime == t && a.patient.name == pn && a.doctor.name == dn)) = true := by
  by_cases c1 : a.dateTime = t
  · by_cases c2 : a.patient.name = pn
    · by_cases c3 : a.doctor.name = dn
      · exact absurd ⟨c1, c2, c3⟩ h
      · simp [c3]
    · simp [c2]
  · simp [c1]

/-- An appointment failing the cancellation filter matches the triple. -/
lemma match_of_cancelCond_false (a : Appointment) (t pn dn : String)
    (h : (!(a.dateTime == t && a.patient.name == pn && a.doctor.name == dn)) = false) :
    a.dateTime = t ∧ a.patient.name = pn ∧ a.doctor.name = dn := by
  have h2 : (a.dateTime = t ∧ a.patient.name = pn) ∧ a.doctor.name = dn := by simpa using h
  exact ⟨h2.1.1, h2.1.2, h2.2⟩

/-- A non-matching person-list entry passes the deletion filter. -/
lemma entryCond_true_of_not_match (e : String × String × String) (t pn dn : String)
    (h : ¬(e.1 = t ∧ e.2.1 = pn ∧ e.2.2 = dn)) :
    (!(e.1 == t && e.2.1 == pn && e.2.2 == dn)) = true := by
  by_cases c1 : e.1 = t
  · by_cases c2 : e.2.1 = pn
    · by_cases c3 : e.2.2 = dn
      · exact absurd ⟨c1, c2, c3⟩ h
      · simp [c3]
    · simp [c2]
  · simp [c1]

/-- The appointment list after `addAppointment`, spelled out. -/
lemma addAppointment_appointments (p : AbstractPerson) (t pn dn : String) :
    (p.addAppointment t pn dn).appointments = p.appointments ++ [(t, pn, dn)] := rfl

/-- The appointment list after `deleteAppointment`, spelled out. -/
lemma deleteAppointment_appointments (p : AbstractPerson) (t pn dn : String) :
    (p.deleteAppointment t pn dn).appointments = (p.appointments.filter fun a =>
      !(a.1 == t && a.2.1 == pn && a.2.2 == dn)) := rfl

/-- `getD` over an append, inside the left part. -/
lemma getD_append_left {α : Type} [Inhabited α] (l l2 : List α) (i : Nat)
    (hi : i < l.length) : (l ++ l2).getD i default = l.getD i default := by
  rw [List.getD_eq_getElem?_getD, List.getElem?_append_left hi, ← List.getD_eq_getElem?_getD]

/-- `getD` of a one-element append at the old length. -/
lemma getD_append_length {α : Type} [Inhabited α] (l : List α) (x : α) :
    (l ++ [x]).getD l.length default = x := by
  rw [List.getD_eq_getElem?_getD, List.getElem?_concat_length]
  rfl

/-- A full booking (the shape shared by a successful `scheduleAppointment`
and by one seed iteration) preserves the consistency invariant. -/
lemma ConsInv_fullBooking (r : Registry) (di pidx : Nat) (t pn : String)
    (hdi : di < r.doctors.length) (hpidx : pidx < r.patients.length)
    (hpn : (r.patients.getD pidx default).name = pn) (h : ConsInv r) :
    ConsInv { r with
      doctors := (r.doctors.set di
        ((r.doctors.getD di default).addAppointment t pn
          (r.doctors.getD di default).name)),
      patients := (r.patients.set pidx
        ((r.patients.getD pidx default).addAppointment t pn
          (r.doctors.getD di default).name)),
      appointments := (r.appointments ++
        [⟨t, (r.doctors.getD di default).addAppointment t pn
            (r.doctors.getD di default).name,
          (r.patients.getD pidx default).addAppointment t pn
            (r.doctors.getD di default).name⟩]) } := by
  obtain ⟨hN, hPN, hdo, hpo, hmd, hmp, hdg, hpg⟩ := h
  refine ⟨?_, ?_, ?_, ?_, ?_, ?_, ?_, ?_⟩
  · show ((r.doctors.set di _).map AbstractPerson.name).Nodup
    rw [map_name_set]
    · exact hN
    · rfl
  · show ((r.patients.set pidx _).map AbstractPerson.name).Nodup
    rw [map_name_set]
    · exact hPN
    · rfl
  · intro i hi e he
    have hi2 : i < r.doctors.length := by simpa using hi
    rcases eq_or_ne di i with rfl | hne
    · rw [getD_set_self _ _ _ hdi] at he ⊢
      rw [addAppointment_appointments] at he
      rw [addAppointment_name]
      rcases List.mem_append.mp he with he | he
      · exact hdo di hdi e he
      · rw [List.mem_singleton] at he
        subst he
        rfl
    · rw [getD_set_ne _ _ _ _ hne] at he ⊢
      exact hdo i hi2 e he
  · intro i hi e he
    have hi2 : i < r.patients.length := by simpa using hi
    rcases eq_or_ne pidx i with rfl | hne
    · rw [getD_set_self _ _ _ hpidx] at he ⊢
      rw [addAppointment_appointments] at he
      rw [addAppointment_name]
      rcases List.mem_append.mp he with he | he
      · exact hpo pidx hpidx e he
      · rw [List.mem_singleton] at he
        subst he
        exact hpn.symm
    · rw [getD_set_ne _ _ _ _ hne] at he ⊢
      exact hpo i hi2 e he
  · intro a ha
    rcases List.mem_append.mp ha with ha | ha
    · obtain ⟨i, hi, hni, hmi⟩ := hmd a ha
      refine ⟨i, by simpa using hi, ?_, ?_⟩
      · rcases eq_or_ne di i with rfl | hne
        · rw [getD_set_self _ _ _ hdi, addAppointment_name]
          exact hni
        · rw [getD_set_ne _ _ _ _ hne]
          exact hni
      · rcases eq_or_ne di i with rfl | hne
        · rw [getD_set_self _ _ _ hdi, addAppointment_appointments]
          exact List.mem_append_left _ hmi
        · rw [getD_set_ne _ _ _ _ hne]
          exact hmi
    · rw [List.mem_singleton] at ha
      subst ha
      refine ⟨di, by simpa using hdi, ?_, ?_⟩
      · rw [getD_set_self _ _ _ hdi]
      · rw [getD_set_self _ _ _ hdi, addAppointment_appointments]
        show tripleOf _ ∈ (r.doctors.getD di default).appointments ++ [(t, pn, _)]
        simp only [tripleOf, addAppointment_name, hpn]
        exact List.mem_append_right _ (List.mem_singleton.mpr rfl)
  · intro a ha
    rcases List.mem_append.mp ha with ha | ha
    · obtain ⟨i, hi, hni, hmi⟩ := hmp a ha
      refine ⟨i, by simpa using hi, ?_, ?_⟩
      · rcases eq_or_ne pidx i with rfl | hne
        · rw [getD_set_self _ _ _ hpidx, addAppointment_name]
          exact hni
        · rw [getD_set_ne _ _ _ _ hne]
          exact hni
      · rcases eq_or_ne pidx i with rfl | hne
        · rw [getD_set_self _ _ _ hpidx, addAppointment_appointments]
          exact List.mem_append_left _ hmi
        · rw [getD_set_ne _ _ _ _ hne]
          exact hmi
    · rw [List.mem_singleton] at ha
      subst ha
      refine ⟨pidx, by simpa using hpidx, ?_, ?_⟩
      · rw [getD_set_self _ _ _ hpidx]
      · rw [getD_set_self _ _ _ hpidx, addAppointment_appointments]
        show tripleOf _ ∈ (r.patients.getD pidx default).appointments ++ [(t, pn, _)]
        simp only [tripleOf, addAppointment_name, hpn]
        exact List.mem_append_right _ (List.mem_singleton.mpr rfl)
  · intro i hi e he
    have hi2 : i < r.doctors.length := by simpa using hi
    rcases eq_or_ne di i with rfl | hne
    · rw [getD_set_self _ _ _ hdi, addAppointment_appointments] at he
      rcases List.mem_append.mp he with he | he
      · obtain ⟨a, ha, hta⟩ := hdg di hdi e he
        exact ⟨a, List.mem_append_left _ ha, hta⟩
      · rw [List.mem_singleton] at he
        subst he
        refine ⟨_, List.mem_append_right _ (List.mem_singleton.mpr rfl), ?_⟩
        simp only [tripleOf, addAppointment_name, hpn]
    · rw [getD_set_ne _ _ _ _ hne] at he
      obtain ⟨a, ha, hta⟩ := hdg i hi2 e he
      exact ⟨a, List.mem_append_left _ ha, hta⟩
  · intro i hi e he
    have hi2 : i < r.patients.length := by simpa using hi
    rcases eq_or_ne pidx i with rfl | hne
    · rw [getD_set_self _ _ _ hpidx, addAppointment_appointments] at he
      rcases List.mem_append.mp he with he | he
      · obtain ⟨a, ha, hta⟩ := hpg pidx hpidx e he
        exact ⟨a, List.mem_append_left _ ha, hta⟩
      · rw [List.mem_singleton] at he
        subst he
        refine ⟨_, List.mem_append_right _ (List.mem_singleton.mpr rfl), ?_⟩
        simp only [tripleOf, addAppointment_name, hpn]
    · rw [getD_set_ne _ _ _ _ hne] at he
      obtain ⟨a, ha, hta⟩ := hpg i hi2 e he
      exact ⟨a, List.mem_append_left _ ha, hta⟩

/-- Full cancellation (all three erases at registered names) preserves the
consistency invariant. -/
lemma ConsInv_cancelFull (r : Registry) (dj pj : Nat) (t pn dn : String)
    (hdj : dj < r.doctors.length) (hpj : pj < r.patients.length)
    (hdn : (r.doctors.getD dj default).name = dn)
    (hpn : (r.patients.getD pj default).name = pn)
    (h : ConsInv r) :
    ConsInv { r with
      doctors := (r.doctors.set dj
        ((r.doctors.getD dj default).deleteAppointment t pn dn)),
      patients := (r.patients.set pj
        ((r.patients.getD pj default).deleteAppointment t pn dn)),
      appointments := (r.appointments.filter fun app =>
        !(app.dateTime == t && app.patient.name == pn && app.doctor.name == dn)) } := by
  obtain ⟨hN, hPN, hdo, hpo, hmd, hmp, hdg, hpg⟩ := h
  refine ⟨?_, ?_, ?_, ?_, ?_, ?_, ?_, ?_⟩
  · show ((r.doctors.set dj _).map AbstractPerson.name).Nodup
    rw [map_name_set]
    · exact hN
    · rfl
  · show ((r.patients.set pj _).map AbstractPerson.name).Nodup
    rw [map_name_set]
    · exact hPN
    · rfl
  · intro i hi e he
    have hi2 : i < r.doctors.length := by simpa using hi
    rcases eq_or_ne dj i with rfl | hne
    · rw [getD_set_self _ _ _ hdj] at he ⊢
      rw [deleteAppointment_appointments] at he
      rw [deleteAppointment_name]
      exact hdo dj hdj e (List.mem_of_mem_filter he)
    · rw [getD_set_ne _ _ _ _ hne] at he ⊢
      exact hdo i hi2 e he
  · intro i hi e he
    have hi2 : i < r.patients.length := by simpa using hi
    rcases eq_or_ne pj i with rfl | hne
    · rw [getD_set_self _ _ _ hpj] at he ⊢
      rw [deleteAppointment_appointments] at he
      rw [deleteAppointment_name]
      exact hpo pj hpj e (List.mem_of_mem_filter he)
    · rw [getD_set_ne _ _ _ _ hne] at he ⊢
      exact hpo i hi2 e he
  · intro a ha
    have hcond := List.of_mem_filter ha
    obtain ⟨i, hi, hni, hmi⟩ := hmd a (List.mem_of_mem_filter ha)
    refine ⟨i, by simpa using hi, ?_, ?_⟩
    · rcases eq_or_ne dj i with rfl | hne
      · rw [getD_set_self _ _ _ hdj, deleteAppointment_name]
        exact hni
      · rw [getD_set_ne _ _ _ _ hne]
        exact hni
    · rcases eq_or_ne dj i with rfl | hne
      · rw [getD_set_self _ _ _ hdj, deleteAppointment_appointments]
        exact List.mem_filter.mpr ⟨hmi, hcond⟩
      · rw [getD_set_ne _ _ _ _ hne]
        exact hmi
  · intro a ha
    have hcond := List.of_mem_filter ha
    obtain ⟨i, hi, hni, hmi⟩ := hmp a (List.mem_of_mem_filter ha)
    refine ⟨i, by simpa using hi, ?_, ?_⟩
    · rcases eq_or_ne pj i with rfl | hne
      · rw [getD_set_self _ _ _ hpj, deleteAppointment_name]
        exact hni
      · rw [getD_set_ne _ _ _ _ hne]
        exact hni
    · rcases eq_or_ne pj i with rfl | hne
      · rw [getD_set_self _ _ _ hpj, deleteAppointment_appointments]
        exact List.mem_filter.mpr ⟨hmi, hcond⟩
      · rw [getD_set_ne _ _ _ _ hne]
        exact hmi
  · intro i hi e he
    have hi2 : i < r.doctors.length := by simpa using hi
    rcases eq_or_ne dj i with rfl | hne
    · rw [getD_set_self _ _ _ hdj, deleteAppointment_appointments] at he
      have hcond := List.of_mem_filter he
      obtain ⟨a, ha, hta⟩ := hdg dj hdj e (List.mem_of_mem_filter he)
      subst hta
      exact ⟨a, List.mem_filter.mpr ⟨ha, hcond⟩, rfl⟩
    · rw [getD_set_ne _ _ _ _ hne] at he
      obtain ⟨a, ha, hta⟩ := hdg i hi2 e he
      refine ⟨a, List.mem_filter.mpr ⟨ha, ?_⟩, hta⟩
      apply cancelCond_true_of_not_match
      rintro ⟨-, -, h3⟩
      have he22 : e.2.2 = dn := by
        rw [← hta]
        exact h3
      have hname : (r.doctors.getD i default).name = (r.doctors.getD dj default).name := by
        rw [← hdo i hi2 e he, he22, hdn]
      exact hne (names_getD_inj r.doctors hN i dj hi2 hdj hname).symm
  · intro i hi e he
    have hi2 : i < r.patients.length := by simpa using hi
    rcases eq_or_ne pj i with rfl | hne
    · rw [getD_set_self _ _ _ hpj, deleteAppointment_appointments] at he
      have hcond := List.of_mem_filter he
      obtain ⟨a, ha, hta⟩ := hpg pj hpj e (List.mem_of_mem_filter he)
      subst hta
      exact ⟨a, List.mem_filter.mpr ⟨ha, hcond⟩, rfl⟩
    · rw [getD_set_ne _ _ _ _ hne] at he
      obtain ⟨a, ha, hta⟩ := hpg i hi2 e he
      refine ⟨a, List.mem_filter.mpr ⟨ha, ?_⟩, hta⟩
      apply cancelCond_true_of_not_match
      rintro ⟨-, h2, -⟩
      have he21 : e.2.1 = pn := by
        rw [← hta]
        exact h2
      have hname : (r.patients.getD i default).name = (r.patients.getD pj default).name := by
        rw [← hpo i hi2 e he, he21, hpn]
      exact hne (names_getD_inj r.patients hPN i pj hi2 hpj hname).symm

/-- When the doctor name is unknown, the doctor-side mirror forces the
global erase to remove nothing. -/
lemma cancelFilter_id_of_noDoctor (r : Registry) (t pn dn : String)
    (hm : MirrorD r)
    (hd : (r.doctors.findIdx? fun d => d.name == dn) = none) :
    (r.appointments.filter fun app =>
      !(app.dateTime == t && app.patient.name == pn && app.doctor.name == dn)) =
      r.appointments := by
  apply List.filter_eq_self.mpr
  intro a ha
  apply cancelCond_true_of_not_match
  rintro ⟨-, -, h3⟩
  obtain ⟨i, hi, hni, -⟩ := hm a ha
  have hall := List.findIdx?_eq_none_iff.mp hd (r.doctors.getD i default) (getD_mem _ _ hi)
  simp only [Bool.not_eq_true, beq_eq_false_iff_ne, ne_eq] at hall
  exact hall (hni.trans h3)

/-- When the patient name is unknown, the patient-side mirror forces the
global erase to remove nothing. -/
lemma cancelFilter_id_of_noPatient (r : Registry) (t pn dn : String)
    (hm : MirrorP r)
    (hp : (r.patients.findIdx? fun p => p.name == pn) = none) :
    (r.appointments.filter fun app =>
      !(app.dateTime == t && app.patient.name == pn && app.doctor.name == dn)) =
      r.appointments := by
  apply List.filter_eq_self.mpr
  intro a ha
  apply cancelCond_true_of_not_match
  rintro ⟨-, h2, -⟩
  obtain ⟨i, hi, hni, -⟩ := hm a ha
  have hall := List.findIdx?_eq_none_iff.mp hp (r.patients.getD i default) (getD_mem _ _ hi)
  simp only [Bool.not_eq_true, beq_eq_false_iff_ne, ne_eq] at hall
  exact hall (hni.trans h2)

/-- When the patient name is unknown, the doctor-side erase of the
matching triple removes nothing either. -/
lemma deleteDoctor_id_of_noPatient (r : Registry) (dj : Nat) (t pn dn : String)
    (hdj : dj < r.doctors.length)
    (hdg : DocEntriesGlobal r) (hmp : MirrorP r)
    (hp : (r.patients.findIdx? fun p => p.name == pn) = none) :
    (r.doctors.getD dj default).deleteAppointment t pn dn =
      r.doctors.getD dj default := by
  have hfid : ((r.doctors.getD dj default).appointments.filter fun a =>
      !(a.1 == t && a.2.1 == pn && a.2.2 == dn)) =
      (r.doctors.getD dj default).appointments := by
    apply List.filter_eq_self.mpr
    intro e he
    apply entryCond_true_of_not_match
    rintro ⟨-, h2, -⟩
    obtain ⟨a, ha, hta⟩ := hdg dj hdj e he
    obtain ⟨i, hi, hni, -⟩ := hmp a ha
    have hall := List.findIdx?_eq_none_iff.mp hp (r.patients.getD i default) (getD_mem _ _ hi)
    simp only [Bool.not_eq_true, beq_eq_false_iff_ne, ne_eq] at hall
    have hap : a.patient.name = pn := by
      have h21 : a.patient.name = e.2.1 := by
        rw [← hta]
        rfl
      rw [h21, h2]
    exact hall (hni.trans hap)
  rw [AbstractPerson.deleteAppointment, hfid]

/-- Every cancellation transition preserves the consistency invariant: when
one of the lookups throws, the erases already performed were vacuous. -/
lemma ConsInv_cancel (r : Registry) (t pn dn : String) (h : ConsInv r) :
    ConsInv (r.cancelAppointment t pn dn).1 := by
  cases hd : (r.doctors.findIdx? fun d => d.name == dn) with
  | none =>
    rw [cancel_state_noDoctor r t pn dn hd,
      cancelFilter_id_of_noDoctor r t pn dn h.2.2.2.2.1 hd]
    exact h
  | some di =>
    obtain ⟨hdi, hdname, -⟩ := List.findIdx?_eq_some_iff_getElem.mp hd
    have hdn2 : (r.doctors.getD di default).name = dn := by
      rw [getD_eq_getElem _ _ hdi]
      simpa using hdname
    cases hp2 : (r.patients.findIdx? fun p => p.name == pn) with
    | none =>
      rw [cancel_state_noPatient r t pn dn di hd hp2,
        cancelFilter_id_of_noPatient r t pn dn h.2.2.2.2.2.1 hp2,
        deleteDoctor_id_of_noPatient r di t pn dn hdi h.2.2.2.2.2.2.1 h.2.2.2.2.2.1 hp2]
      have hset : r.doctors.set di (r.doctors.getD di default) = r.doctors := by
        rw [getD_eq_getElem _ _ hdi]
        exact set_getElem_self _ _ hdi
      rw [hset]
      exact h
    | some pidx =>
      obtain ⟨hpl, hpname, -⟩ := List.findIdx?_eq_some_iff_getElem.mp hp2
      have hpn2 : (r.patients.getD pidx default).name = pn := by
        rw [getD_eq_getElem _ _ hpl]
        simpa using hpname
      rw [cancel_state_full r t pn dn di pidx hd hp2]
      exact ConsInv_cancelFull r di pidx t pn dn hdi hpl hdn2 hpn2 h

/-- A schedule call with a registry doctor and a registered patient
preserves the consistency invariant. -/
lemma ConsInv_sched (r : Registry) (t : String) (di : Nat) (pat : AbstractPerson)
    (hdi : di < r.doctors.length) (hpat : r.patientExists pat.name = true)
    (h : ConsInv r) : ConsInv (r.scheduleAppointment t di pat).1 := by
  cases hav : (r.doctors.getD di default).isAvailable t with
  | false =>
    rw [sched_state_notAvailable r t di pat hav]
    exact h
  | true =>
    cases hfp : (r.patients.findIdx? fun p => p.name == pat.name) with
    | none =>
      exfalso
      obtain ⟨pidx, hsome⟩ := findPatientIdx_of_exists r pat.name hpat
      rw [Registry.findPatientIdx, hfp] at hsome
      cases hsome
    | some pidx =>
      obtain ⟨hpl, hpname, -⟩ := List.findIdx?_eq_some_iff_getElem.mp hfp
      have hpn : (r.patients.getD pidx default).name = pat.name := by
        rw [getD_eq_getElem _ _ hpl]
        simpa using hpname
      rw [sched_state_full r t di pidx pat hav hfp]
      exact ConsInv_fullBooking r di pidx t pat.name hdi hpl hpn h

/-- `addPatient` at a registered name leaves the registry unchanged. -/
lemma addPatient_state_exists (r : Registry) (name age : String)
    (hex : r.patientExists name = true) : (r.addPatient name age).1 = r := by
  simp only [Registry.addPatient, hex, if_true]

/-- `addPatient` at a fresh name appends the new patient. -/
lemma addPatient_state_fresh (r : Registry) (name age : String)
    (hex : r.patientExists name = false) :
    (r.addPatient name age).1 = { r with patients := r.patients ++ [mkPatient name age] } := by
  simp only [Registry.addPatient, hex, Bool.false_eq_true, if_false]

/-- `addPatient` preserves the consistency invariant: the appended patient
record starts with no appointments and a name distinct from every stored
patient name. -/
lemma ConsInv_addPatient (r : Registry) (name age : String) (h : ConsInv r) :
    ConsInv (r.addPatient name age).1 := by
  obtain ⟨hN, hPN, hdo, hpo, hmd, hmp, hdg, hpg⟩ := h
  cases hex : r.patientExists name with
  | true =>
    rw [addPatient_state_exists r name age hex]
    exact ⟨hN, hPN, hdo, hpo, hmd, hmp, hdg, hpg⟩
  | false =>
    rw [addPatient_state_fresh r name age hex]
    have hnin : ∀ p ∈ r.patients, ¬(p.name = name) := by
      rw [Registry.patientExists, List.any_eq_false] at hex
      intro p hp
      have := hex p hp
      simpa using this
    refine ⟨hN, ?_, hdo, ?_, hmd, ?_, hdg, ?_⟩
    · show ((r.patients ++ [mkPatient name age]).map AbstractPerson.name).Nodup
      rw [List.map_append, List.nodup_append]
      refine ⟨hPN, List.nodup_singleton _, ?_⟩
      intro x hx hx2
      simp only [List.mem_map] at hx hx2
      obtain ⟨p, hp, rfl⟩ := hx
      obtain ⟨q, hq, hqx⟩ := hx2
      rw [List.mem_singleton] at hq
      subst hq
      exact hnin p hp hqx.symm
    · intro i hi e he
      have hi2 : i < r.patients.length + 1 := by simpa using hi
      rcases Nat.lt_or_ge i r.patients.length with hlt | hge
      · rw [getD_append_left _ _ _ hlt] at he ⊢
        exact hpo i hlt e he
      · have hieq : i = r.patients.length := by omega
        subst hieq
        rw [getD_append_length] at he
        exact absurd he (List.not_mem_nil e)
    · intro a ha
      obtain ⟨i, hi, hni, hmi⟩ := hmp a ha
      refine ⟨i, ?_, ?_, ?_⟩
      · simp only [List.length_append, List.length_singleton]
        omega
      · rw [getD_append_left _ _ _ hi]
        exact hni
      · rw [getD_append_left _ _ _ hi]
        exact hmi
    · intro i hi e he
      rcases Nat.lt_or_ge i r.patients.length with hlt | hge
      · rw [getD_append_left _ _ _ hlt] at he
        exact hpg i hlt e he
      · have hi2 : i < r.patients.length + 1 := by simpa using hi
        have hieq : i = r.patients.length := by omega
        subst hieq
        rw [getD_append_length] at he
        exact absurd he (List.not_mem_nil e)

/-- `addHospitalVisitCard` touches only the visit-card store, which the
consistency invariant ignores. -/
lemma ConsInv_addVisitCard (r : Registry) (doctor patient : AbstractPerson)
    (dateTime diagnosis : String) (h : ConsInv r) :
    ConsInv (r.addHospitalVisitCard doctor patient dateTime diagnosis).1 := h

/-- One seed booking preserves the consistency invariant. -/
lemma ConsInv_seedOne (r : Registry) (date : String) (i j ti : Nat)
    (hi : i < r.doctors.length) (hj : j < r.patients.length) (h : ConsInv r) :
    ConsInv (seedOne r date i j ti) := by
  rw [seedOne_state]
  exact ConsInv_fullBooking r i j (date ++ defaultTime.getD ti "")
    ((r.patients.getD j default).name) hi hj rfl h

/-- The inner seed loop preserves the consistency invariant. -/
lemma ConsInv_seedInner (date : String) (i : Nat) :
    ∀ (js : List Nat) (r : Registry) (ti : Nat),
      i < r.doctors.length → (∀ j ∈ js, j < r.patients.length) →
      ConsInv r → ConsInv (seedInner r date i js ti).1
  | [], _, _, _, _, h => h
  | j :: js, r, ti, hi, hjs, h => by
    rw [seedInner]
    exact ConsInv_seedInner date i js _ _
      (by rw [seedOne_doctors_length]; exact hi)
      (by intro j2 hj2
          rw [seedOne_patients_length]
          exact hjs j2 (List.mem_cons_of_mem _ hj2))
      (ConsInv_seedOne r date i j ti hi (hjs j (List.mem_cons_self _ _)) h)

/-- The outer seed loop preserves the consistency invariant. -/
lemma ConsInv_seedOuter (date : String) :
    ∀ (iList js : List Nat) (r : Registry) (ti : Nat),
      (∀ i ∈ iList, i < r.doctors.length) → (∀ j ∈ js, j < r.patients.length) →
      ConsInv r → ConsInv (seedOuter r date iList js ti).1
  | [], _, _, _, _, _, h => h
  | i :: iRest, js, r, ti, his, hjs, h => by
    rw [seedOuter]
    apply ConsInv_seedOuter date iRest js _ _
    · intro i2 hi2
      rw [seedInner_doctors_length]
      exact his i2 (List.mem_cons_of_mem _ hi2)
    · intro j2 hj2
      rw [seedInner_patients_length]
      exact hjs j2 hj2
    · exact ConsInv_seedInner date i js r ti (his i (List.mem_cons_self _ _)) hjs h

/-- One dated seeding pass preserves the consistency invariant whenever the
doctor and patient counts are within the list lengths. -/
lemma ConsInv_seedDate (r : Registry) (date : String) (ti dc pc si : Nat)
    (hdc : dc ≤ r.doctors.length) (hpc : pc ≤ r.patients.length) (h : ConsInv r) :
    ConsInv (r.scheduleDefaulteAppointmentsForDate date ti dc pc si) := by
  rw [Registry.scheduleDefaulteAppointmentsForDate]
  apply ConsInv_seedOuter date _ _ r ti ?_ ?_ h
  · intro i hi
    have := List.mem_range'_1.mp hi
    omega
  · intro j hj
    have := List.mem_range'_1.mp hj
    omega

/-- The full default seeding preserves the consistency invariant from any
starting state. -/
lemma ConsInv_generate (r : Registry) (today tomorrow : String) (h : ConsInv r) :
    ConsInv (r.generateDefaultAppointments today tomorrow) := by
  rw [Registry.generateDefaultAppointments]
  exact ConsInv_seedDate _ tomorrow 7 _ _ 4 (le_refl _) (le_refl _)
    (ConsInv_seedDate r today 0 _ _ 0 (Nat.div_le_self _ _) (Nat.div_le_self _ _) h)

/-- The appointment list of every initial doctor record is empty. -/
lemma initial_doctors_appointments (i : Nat) :
    (initialRegistry.doctors.getD i default).appointments = [] := by
  rcases Nat.lt_or_ge i 8 with hi | hi
  · interval_cases i <;> rfl
  · rw [List.getD_eq_getElem?_getD, List.getElem?_eq_none (by simpa using hi)]
    rfl

/-- The appointment list of every initial patient record is empty. -/
lemma initial_patients_appointments (i : Nat) :
    (initialRegistry.patients.getD i default).appointments = [] := by
  rcases Nat.lt_or_ge i 8 with hi | hi
  · interval_cases i <;> rfl
  · rw [List.getD_eq_getElem?_getD, List.getElem?_eq_none (by simpa using hi)]
    rfl

/-- The consistency invariant holds in a freshly constructed registry. -/
lemma ConsInv_initial : ConsInv initialRegistry := by
  refine ⟨?_, ?_, ?_, ?_, ?_, ?_, ?_, ?_⟩
  · show ((initialRegistry.doctors.map AbstractPerson.name)).Nodup
    decide
  · show ((initialRegistry.patients.map AbstractPerson.name)).Nodup
    decide
  · intro i hi e he
    rw [initial_doctors_appointments] at he
    exact absurd he (List.not_mem_nil e)
  · intro i hi e he
    rw [initial_patients_appointments] at he
    exact absurd he (List.not_mem_nil e)
  · intro a ha
    simp [initialRegistry] at ha
  · intro a ha
    simp [initialRegistry] at ha
  · intro i hi e he
    rw [initial_doctors_appointments] at he
    exact absurd he (List.not_mem_nil e)
  · intro i hi e he
    rw [initial_patients_appointments] at he
    exact absurd he (List.not_mem_nil e)

/-- The entry appears in a registry doctor record carrying the doctor
name. -/
def EntryInDoctors (r : Registry) (dt pn dn : String) : Prop :=
  ∃ d ∈ r.doctors, d.name = dn ∧ (dt, pn, dn) ∈ d.appointments

/-- The entry appears in a registry patient record carrying the patient
name. -/
def EntryInPatients (r : Registry) (dt pn dn : String) : Prop :=
  ∃ p ∈ r.patients, p.name = pn ∧ (dt, pn, dn) ∈ p.appointments

/-- An appointment with the three fields appears in the global list. -/
def EntryInGlobal (r : Registry) (dt pn dn : String) : Prop :=
  ∃ a ∈ r.appointments, a.dateTime = dt ∧ a.patient.name = pn ∧ a.doctor.name = dn

/-- Under the consistency invariant the three views agree. -/
lemma ConsInv_entry_iff (r : Registry) (h : ConsInv r) (dt pn dn : String) :
    (EntryInDoctors r dt pn dn ↔ EntryInGlobal r dt pn dn) ∧
    (EntryInPatients r dt pn dn ↔ EntryInGlobal r dt pn dn) := by
  obtain ⟨hN, hPN, hdo, hpo, hmd, hmp, hdg, hpg⟩ := h
  constructor
  · constructor
    · rintro ⟨d, hd, hdn, hmem⟩
      obtain ⟨i, hi, hie⟩ := List.getElem_of_mem hd
      have hmem2 : (dt, pn, dn) ∈ (r.doctors.getD i default).appointments := by
        rw [getD_eq_getElem _ _ hi, hie]
        exact hmem
      obtain ⟨a, ha, hta⟩ := hdg i hi _ hmem2
      have h1 : a.dateTime = dt := congrArg Prod.fst hta
      have h2 : a.patient.name = pn := congrArg (fun x => x.2.1) hta
      have h3 : a.doctor.name = dn := congrArg (fun x => x.2.2) hta
      exact ⟨a, ha, h1, h2, h3⟩
    · rintro ⟨a, ha, h1, h2, h3⟩
      obtain ⟨i, hi, hni, hmi⟩ := hmd a ha
      refine ⟨r.doctors.getD i default, getD_mem _ _ hi, hni.trans h3, ?_⟩
      rw [← h1, ← h2, ← h3]
      exact hmi
  · constructor
    · rintro ⟨p, hp, hpn, hmem⟩
      obtain ⟨i, hi, hie⟩ := List.getElem_of_mem hp
      have hmem2 : (dt, pn, dn) ∈ (r.patients.getD i default).appointments := by
        rw [getD_eq_getElem _ _ hi, hie]
        exact hmem
      obtain ⟨a, ha, hta⟩ := hpg i hi _ hmem2
      have h1 : a.dateTime = dt := congrArg Prod.fst hta
      have h2 : a.patient.name = pn := congrArg (fun x => x.2.1) hta
      have h3 : a.doctor.name = dn := congrArg (fun x => x.2.2) hta
      exact ⟨a, ha, h1, h2, h3⟩
    · rintro ⟨a, ha, h1, h2, h3⟩
      obtain ⟨i, hi, hni, hmi⟩ := hmp a ha
      refine ⟨r.patients.getD i default, getD_mem _ _ hi, hni.trans h2, ?_⟩
      rw [← h1, ← h2, ← h3]
      exact hmi

/-- One public registry operation, as issued by the menu layer: scheduling
aliases a registry doctor record and passes a registered patient (every
patient the menu hands over comes from `addPatient` or from the stored
patient list; an unregistered one would abort the process), cancellation and
the other operations are unrestricted, and each query returns the state
unchanged.  The resulting state is the one the C++ object holds afterwards,
also when a cancellation lookup throws midway. -/
inductive RegOp : Registry → Registry → Prop where
  | sched (r : Registry) (dateTime : String) (di : Nat) (patient : AbstractPerson)
      (hdi : di < r.doctors.length) (hpat : r.patientExists patient.name = true) :
      RegOp r (r.scheduleAppointment dateTime di patient).1
  | cancel (r : Registry) (dateTime patientName doctorName : String) :
      RegOp r (r.cancelAppointment dateTime patientName doctorName).1
  | addPatient (r : Registry) (name age : String) : RegOp r (r.addPatient name age).1
  | addVisitCard (r : Registry) (doctor patient : AbstractPerson)
      (dateTime diagnosis : String) :
      RegOp r (r.addHospitalVisitCard doctor patient dateTime diagnosis).1
  | seed (r : Registry) (todayDate tomorrowDate : String) :
      RegOp r (r.generateDefaultAppointments todayDate tomorrowDate)
  | queryPatientExists (r : Registry) (n : String) : RegOp r (r.patientExists_call n).2
  | queryAvailableTimes (r : Registry) (date : String) :
      RegOp r (r.getAvailableTimes_call date).2
  | queryAvailableTimesForDoctor (r : Registry) (date dn : String) :
      RegOp r (r.getAvailableTimesForDoctor_call date dn).2
  | queryAvailableDoctors (r : Registry) (date : String) :
      RegOp r (r.getAvailableDoctors_call date).2
  | queryVisitCards (r : Registry) (p : AbstractPerson) :
      RegOp r (r.getVisitCardsForPatient_call p).2

/-- Every public operation preserves the consistency invariant. -/
lemma ConsInv_step (r r2 : Registry) (hs : RegOp r r2) (h : ConsInv r) : ConsInv r2 := by
  cases hs with
  | sched t di pat hdi hpat => exact ConsInv_sched r t di pat hdi hpat h
  | cancel t pn dn => exact ConsInv_cancel r t pn dn h
  | addPatient name age => exact ConsInv_addPatient r name age h
  | addVisitCard d p t diag => exact ConsInv_addVisitCard r d p t diag h
  | seed today tomorrow => exact ConsInv_generate r today tomorrow h
  | queryPatientExists n => exact h
  | queryAvailableTimes date => exact h
  | queryAvailableTimesForDoctor date dn => exact h
  | queryAvailableDoctors date => exact h
  | queryVisitCards p => exact h

/-- C4: in every state reachable from a freshly constructed registry by the
public operations (seeding, scheduling at a registry doctor record with a
registered patient, cancellation also when its lookups throw midway, patient
registration, visit-card addition, and the queries), an entry
(dateTime, patientName, doctorName) stands in the named doctor record iff it
stands in the named patient record iff an appointment with those three
fields stands in the global list. -/
theorem mirror_consistency (r : Registry)
    (hr : Relation.ReflTransGen RegOp initialRegistry r) (dt pn dn : String) :
    (EntryInDoctors r dt pn dn ↔ EntryInGlobal r dt pn dn) ∧
    (EntryInPatients r dt pn dn ↔ EntryInGlobal r dt pn dn) := by
  have hinv : ConsInv r := by
    induction hr with
    | refl => exact ConsInv_initial
    | tail hab hstep ih => exact ConsInv_step _ _ hstep ih
  exact ConsInv_entry_iff r hinv dt pn dn

/-- C4 witness: the fresh registry is reachable in zero steps, and there the
three views agree on a concrete triple. -/
theorem mirror_consistency_witness :
    (EntryInDoctors initialRegistry "2025-01-10 08:00" "Alice Smith" "Mark Johnson" ↔
      EntryInGlobal initialRegistry "2025-01-10 08:00" "Alice Smith" "Mark Johnson") ∧
    (EntryInPatients initialRegistry "2025-01-10 08:00" "Alice Smith" "Mark Johnson" ↔
      EntryInGlobal initialRegistry "2025-01-10 08:00" "Alice Smith" "Mark Johnson") :=
  mirror_consistency initialRegistry Relation.ReflTransGen.refl
    "2025-01-10 08:00" "Alice Smith" "Mark Johnson"

/-- C8: seeding a fresh registry is a pure function of the two date strings.
The global list seeded for (today, tomorrow) carries exactly the triples of
the generative pattern `specSeedTriples` (today: doctors 0-3 against
patients 0-3 with the fixed time list cycled backward from index 0;
tomorrow: doctors 4-7 against patients 4-7 cycled backward from index 7,
wrapping), with no availability check; and each triple is mirrored into the
named doctor and patient records, as the three views agree. -/
theorem default_seed_deterministic (today tomorrow : String) :
    ((initialRegistry.generateDefaultAppointments today tomorrow).appointments.map tripleOf =
      specSeedTriples today tomorrow) ∧
    (∀ dt pn dn,
      (EntryInDoctors (initialRegistry.generateDefaultAppointments today tomorrow) dt pn dn ↔
        EntryInGlobal (initialRegistry.generateDefaultAppointments today tomorrow) dt pn dn) ∧
      (EntryInPatients (initialRegistry.generateDefaultAppointments today tomorrow) dt pn dn ↔
        EntryInGlobal (initialRegistry.generateDefaultAppointments today tomorrow) dt pn dn)) :=
  ⟨seeded_triples today tomorrow, fun dt pn dn =>
    ConsInv_entry_iff _ (ConsInv_generate initialRegistry today tomorrow ConsInv_initial) dt pn dn⟩
